import Mathlib

/-!
Verification development for the poem-pipeline repository: a shallow
embedding of the critique decoder (src/agent/graph.py, criticize_poem),
the resilient call wrapper (src/core/safe_call.py), the pipeline entry
points (src/core/orchestrator.py over src/agent/graph.py), and the
incremental taste-profile learner with its read-time projection
(src/core/storage.py, src/app.py).
-/

/-! ### Characters that the repository's text handling singles out.
Written via code points so the development stays free of brace and quote
literals. -/

def lbraceChar : Char := Char.ofNat 123

def rbraceChar : Char := Char.ofNat 125

def quoteChar : Char := Char.ofNat 34

def backslashChar : Char := Char.ofNat 92

/-! ### JSON values and a JSON parser.
`TypeAdapter(Critique).validate_json` in criticize_poem strict-parses the
whole text as JSON and validates it against the Critique schema.  The
external JSON parse is modelled by an executable recursive-descent parser
over the character list: values are objects, arrays, strings (with the
common escapes), integers and the three literals, with whitespace allowed
around every token and the rest of the input returned. -/

inductive JVal where
  | null : JVal
  | bool : Bool → JVal
  | num : Int → JVal
  | str : String → JVal
  | arr : List JVal → JVal
  | obj : List (String × JVal) → JVal

def isWsChar (c : Char) : Bool := c = ' ' || c = '\t' || c = '\n' || c = '\r'

def skipWs (l : List Char) : List Char := l.dropWhile isWsChar

/-- Python `str.lower()` (ASCII). -/
def toLowerStr (s : String) : String := String.mk (s.data.map Char.toLower)

/-- Python `str.strip()` (ASCII whitespace). -/
def trimStr (s : String) : String :=
  String.mk (((s.data.dropWhile isWsChar).reverse.dropWhile isWsChar).reverse)

def isPrefixOfChars : List Char → List Char → Bool
  | [], _ => true
  | _ :: _, [] => false
  | a :: as, b :: bs => a = b && isPrefixOfChars as bs

/-- Python `needle in hay` on strings. -/
def containsSub (needle : List Char) : List Char → Bool
  | [] => needle.isEmpty
  | c :: rest => isPrefixOfChars needle (c :: rest) || containsSub needle rest

def escChar (c : Char) : Char :=
  if c = 'n' then Char.ofNat 10
  else if c = 't' then Char.ofNat 9
  else if c = 'r' then Char.ofNat 13
  else c

/-- Body of a JSON string after the opening quote: returns the decoded
characters and the input after the closing quote. -/
def parseStringBody : List Char → Option (List Char × List Char)
  | [] => none
  | c :: rest =>
    if c = quoteChar then some ([], rest)
    else if c = backslashChar then
      match rest with
      | [] => none
      | e :: rest2 => (parseStringBody rest2).map (fun p => (escChar e :: p.1, p.2))
    else (parseStringBody rest).map (fun p => (c :: p.1, p.2))

def digitsToNat (ds : List Char) : Nat :=
  ds.foldl (fun a c => a * 10 + (c.toNat - 48)) 0

/-- A maximal nonempty run of digits. -/
def parseDigits (l : List Char) : Option (Nat × List Char) :=
  match l.takeWhile Char.isDigit with
  | [] => none
  | ds => some (digitsToNat ds, l.dropWhile Char.isDigit)

/-- An object member's key and the colon after it. -/
def parseKeyColon (l : List Char) : Option (String × List Char) :=
  match skipWs l with
  | c :: r =>
    if c = quoteChar then
      match parseStringBody r with
      | none => none
      | some (s, r1) =>
        match skipWs r1 with
        | ':' :: r2 => some (String.mk s, r2)
        | _ => none
    else none
  | [] => none

mutual

def parseJVal : Nat → List Char → Option (JVal × List Char)
  | 0, _ => none
  | fuel + 1, l =>
    match skipWs l with
    | [] => none
    | c :: r =>
      if c = lbraceChar then
        match skipWs r with
        | c2 :: r2 =>
          if c2 = rbraceChar then some (JVal.obj [], r2)
          else (parseMemberSeq fuel r).map (fun p => (JVal.obj p.1, p.2))
        | [] => none
      else if c = '[' then
        match skipWs r with
        | c2 :: r2 =>
          if c2 = ']' then some (JVal.arr [], r2)
          else (parseItemSeq fuel r).map (fun p => (JVal.arr p.1, p.2))
        | [] => none
      else if c = quoteChar then
        (parseStringBody r).map (fun p => (JVal.str (String.mk p.1), p.2))
      else if c.isDigit then
        (parseDigits (c :: r)).map (fun p => (JVal.num (p.1 : Int), p.2))
      else if c = '-' then
        (parseDigits r).map (fun p => (JVal.num (-(p.1 : Int)), p.2))
      else
        match c, r with
        | 'n', 'u' :: 'l' :: 'l' :: r3 => some (JVal.null, r3)
        | 't', 'r' :: 'u' :: 'e' :: r3 => some (JVal.bool true, r3)
        | 'f', 'a' :: 'l' :: 's' :: 'e' :: r3 => some (JVal.bool false, r3)
        | _, _ => none

/-- One or more `"key": value` members, ending at the closing brace
(which is consumed). -/
def parseMemberSeq : Nat → List Char → Option (List (String × JVal) × List Char)
  | 0, _ => none
  | fuel + 1, l =>
    match parseKeyColon l with
    | none => none
    | some (k, r1) =>
      match parseJVal fuel r1 with
      | none => none
      | some (v, r2) =>
        match skipWs r2 with
        | c :: r3 =>
          if c = ',' then (parseMemberSeq fuel r3).map (fun p => ((k, v) :: p.1, p.2))
          else if c = rbraceChar then some ([(k, v)], r3)
          else none
        | [] => none

/-- One or more array items, ending at the closing bracket (consumed). -/
def parseItemSeq : Nat → List Char → Option (List JVal × List Char)
  | 0, _ => none
  | fuel + 1, l =>
    match parseJVal fuel l with
    | none => none
    | some (v, r1) =>
      match skipWs r1 with
      | c :: r2 =>
        if c = ',' then (parseItemSeq fuel r2).map (fun p => (v :: p.1, p.2))
        else if c = ']' then some ([v], r2)
        else none
      | [] => none

end

/-- Parse a whole string as one JSON value: nothing but whitespace may
remain.  The fuel `length + 1` bounds the recursion; every recursive step
consumes at least one character, so it never runs out on a successful
parse. -/
def jsonParse (s : String) : Option JVal :=
  match parseJVal (s.length + 1) s.data with
  | some (v, rest) => if skipWs rest = [] then some v else none
  | none => none

/-! ### The Critique schema (src/agent/schemas.py). -/

structure Critique where
  constraint_issues : List String
  cliches_detected : List String
  imagery_score : Int
  coherence_score : Int
  originality_score : Int
  suggestions : List String
deriving DecidableEq

def asStringList : JVal → Option (List String)
  | JVal.arr items =>
    items.foldr
      (fun j acc =>
        match j, acc with
        | JVal.str s, some l => some (s :: l)
        | _, _ => none)
      (some [])
  | _ => none

def jLookup (ms : List (String × JVal)) (k : String) : Option JVal :=
  (ms.find? (fun p => p.1 = k)).map Prod.snd

/-- A required score field: present, an integer, and in [1,10]
(`Field(..., ge=1, le=10)`). -/
def getScore (ms : List (String × JVal)) (k : String) : Option Int :=
  match jLookup ms k with
  | some (JVal.num n) => if 1 ≤ n ∧ n ≤ 10 then some n else none
  | _ => none

/-- A list-of-strings field with `default_factory=list`: absent means []. -/
def getListField (ms : List (String × JVal)) (k : String) : Option (List String) :=
  match jLookup ms k with
  | none => some []
  | some j => asStringList j

/-- Pydantic validation of a parsed JSON value against the Critique
schema: the value must be an object, the three scores must be present and
in range, the list fields default to []. -/
def validateCritique : JVal → Except String Critique
  | JVal.obj ms =>
    match getListField ms "constraint_issues", getListField ms "cliches_detected",
        getScore ms "imagery_score", getScore ms "coherence_score",
        getScore ms "originality_score", getListField ms "suggestions" with
    | some ci, some cd, some im, some co, some og, some su =>
      Except.ok ⟨ci, cd, im, co, og, su⟩
    | _, _, _, _, _, _ => Except.error "validation_error"
  | _ => Except.error "validation_error"

/-- `TypeAdapter(Critique).validate_json(s)`: strict parse of the entire
string, then schema validation. -/
def strictParseCritique (s : String) : Except String Critique :=
  match jsonParse s with
  | some v => validateCritique v
  | none => Except.error "json_invalid"

/-- The fallback extraction `re.search(r"\x7b.*\x7d", raw, flags=re.DOTALL)`:
the span from the first open brace that has a close brace after it through
the last close brace of the text.  (If no close brace follows the first
open brace then none follows any later one either, so searching from the
first open brace is the regex's behaviour.) -/
def braceSpan (l : List Char) : Option (List Char) :=
  match l.dropWhile (fun c => c ≠ lbraceChar) with
  | [] => none
  | t =>
    match t.reverse.dropWhile (fun c => c ≠ rbraceChar) with
    | [] => none
    | rrev => some rrev.reverse

/-- Python `raw[:200]`: the first `n` characters. -/
def takeChars (n : Nat) (s : String) : String := String.mk (s.data.take n)

/-- The critique decode step of criticize_poem (src/agent/graph.py):
strict parse first; on any failure extract the first-to-last brace span
and strict-parse that; if there is no span, fail with a message carrying
only the first 200 characters of the text. -/
def decodeCritique (raw : String) : Except String Critique :=
  match strictParseCritique raw with
  | Except.ok c => Except.ok c
  | Except.error _ =>
    match braceSpan raw.data with
    | none => Except.error ("critic_parse_failed: " ++ takeChars 200 raw)
    | some core => strictParseCritique (String.mk core)

/-- A string with no brace characters at all (the "no additional braces"
condition on surrounding prose). -/
def braceFree (s : String) : Bool :=
  s.data.all (fun c => c ≠ lbraceChar && c ≠ rbraceChar)

/-- A close brace somewhere after an open brace (what the fallback regex
needs to match). -/
def hasBracePair (s : String) : Bool :=
  (s.data.dropWhile (fun c => c ≠ lbraceChar)).any (fun c => c = rbraceChar)

/-! ### The resilient call wrapper (src/core/safe_call.py). -/

structure ExcInfo where
  name : String
  msg : String
deriving DecidableEq

def transientKeys : List String :=
  ["timeout", "timed out", "rate limit", "429", "overloaded", "503", "502", "connection"]

/-- `_is_transient`: substring match of the lowercased message against the
known transient signatures. -/
def is_transient (msg : String) : Bool :=
  transientKeys.any (fun k => containsSub k.data (toLowerStr msg).data)

structure SafeResult where
  ok : Bool
  request_id : String
  content : Option String := none
  error_user : Option String := none
  error_debug : Option String := none
  latency_ms : Option Nat := none
  retry_count : Nat := 0
deriving DecidableEq

/-- The tenacity loop around `_run`: `stop_after_attempt(3)`,
`retry_if_exception(_is_transient)`, `reraise=True`.  `fn n` is the
outcome of the n-th invocation of the unit of work.  Returns the final
outcome, the number of raised exceptions (the code's `retries["count"]`),
and the number of attempts performed. -/
def tenacityLoop (fn : Nat → Except ExcInfo String) :
    Nat → Nat → Nat → Except ExcInfo String × Nat × Nat
  | 0, attempt, failures => (Except.error ⟨"RetryError", "exhausted"⟩, failures, attempt)
  | remaining + 1, attempt, failures =>
    match fn attempt with
    | Except.ok c => (Except.ok c, failures, attempt)
    | Except.error e =>
      if is_transient e.msg ∧ remaining > 0 then
        tenacityLoop fn remaining (attempt + 1) (failures + 1)
      else (Except.error e, failures + 1, attempt)

/-- Number of attempts `safe_invoke` performs on this unit of work. -/
def attemptsUsed (fn : Nat → Except ExcInfo String) : Nat :=
  (tenacityLoop fn 3 1 0).2.2

/-- Wall-clock latency in ms: the durations `d i` of the attempts that ran
plus the backoff waits `w i` slept before each retry (one wait between
consecutive attempts, none after the last). -/
def latencyOf (d w : Nat → Nat) (attempts : Nat) : Nat :=
  ((List.range attempts).map (fun i => d (i + 1))).sum +
    ((List.range (attempts - 1)).map (fun i => w (i + 1))).sum

/-- `safe_invoke`: run the tenacity-wrapped unit of work; on success
return ok with the content and `max(0, count - 1)` as retry_count; on
failure return ok=false with the caller's user-facing message and the
exception's class and text in error_debug.  `rid` is the generated
correlation id, `d`/`w` the attempt durations and backoff waits. -/
def safe_invoke (rid : String) (user_error : String)
    (fn : Nat → Except ExcInfo String) (d w : Nat → Nat) : SafeResult :=
  match tenacityLoop fn 3 1 0 with
  | (Except.ok c, failures, attempts) =>
    { ok := true, request_id := rid, content := some c,
      latency_ms := some (latencyOf d w attempts), retry_count := failures - 1 }
  | (Except.error e, failures, attempts) =>
    { ok := false, request_id := rid, error_user := some user_error,
      error_debug := some (e.name ++ ": " ++ e.msg),
      latency_ms := some (latencyOf d w attempts), retry_count := failures - 1 }

/-! ### The pipeline state machine (src/agent/graph.py, src/core/orchestrator.py).

Each stage wraps one model call in safe_invoke and raises on a failed
result, so a stage's observable outcome is the ok-content of its
SafeResult or its error_debug.  Prompt formatting does not influence
control flow, so an LLM's behaviour for one run is modelled by the three
stage outcomes. -/

structure LlmBehavior where
  gen : Except String String
  crit : Except String String
  rev : Except String String

structure FullOut where
  poem : String
  critique : Critique
  revised_poem : String
deriving DecidableEq

structure ImproveOut where
  critique : Critique
  revised_poem : String
deriving DecidableEq

/-- The full graph generate_poem → criticize_poem → revise_poem: poems are
the trimmed contents; criticize strips the content and runs the decoder,
and a decode failure fails the stage; any stage failure aborts the run. -/
def full_graph_invoke (b : LlmBehavior) : Except String FullOut :=
  match b.gen with
  | Except.error e => Except.error e
  | Except.ok gcontent =>
    match b.crit with
    | Except.error e => Except.error e
    | Except.ok craw =>
      match decodeCritique (trimStr craw) with
      | Except.error e => Except.error e
      | Except.ok critique =>
        match b.rev with
        | Except.error e => Except.error e
        | Except.ok rcontent => Except.ok ⟨trimStr gcontent, critique, trimStr rcontent⟩

/-- The improve-only graph criticize_poem → revise_poem over an externally
supplied poem text. -/
def improve_graph_invoke (b : LlmBehavior) (_poem : String) : Except String ImproveOut :=
  match b.crit with
  | Except.error e => Except.error e
  | Except.ok craw =>
    match decodeCritique (trimStr craw) with
    | Except.error e => Except.error e
    | Except.ok critique =>
      match b.rev with
      | Except.error e => Except.error e
      | Except.ok rcontent => Except.ok ⟨critique, trimStr rcontent⟩

structure RunOutput where
  ok : Bool
  error_user : Option String := none
  poem : Option String := none
  critique : Option Critique := none
  revised_poem : Option String := none
deriving DecidableEq

/-- orchestrator.generate_only: invokes the FULL graph and keeps only the
poem from the result; any exception becomes a single failure envelope. -/
def generate_only (b : LlmBehavior) : RunOutput :=
  match full_graph_invoke b with
  | Except.ok st => { ok := true, poem := some st.poem }
  | Except.error _ =>
    { ok := false, error_user := some "Could not generate the poem. Please try again." }

/-- orchestrator.generate_and_improve: invokes the full graph and returns
poem, critique (as plain data) and revised poem, or a failure envelope. -/
def generate_and_improve (b : LlmBehavior) : RunOutput :=
  match full_graph_invoke b with
  | Except.ok st =>
    { ok := true, poem := some st.poem, critique := some st.critique,
      revised_poem := some st.revised_poem }
  | Except.error _ =>
    { ok := false, error_user := some "Could not improve the poem. Please try again." }

/-- orchestrator.improve_again: invokes the improve-only graph against a
caller-supplied poem; on success the envelope carries only critique and
revised_poem. -/
def improve_again (b : LlmBehavior) (poem : String) : RunOutput :=
  match improve_graph_invoke b poem with
  | Except.ok st =>
    { ok := true, critique := some st.critique, revised_poem := some st.revised_poem }
  | Except.error _ =>
    { ok := false, error_user := some "Could not improve again. Please try again." }

/-! ### The preference learner (src/core/storage.py update_taste_profile /
get_taste_profile, src/app.py build_user_memory and the rating form). -/

/-- The request snapshot fields `update_taste_profile` reads from the
`request` dict (`request.get("rhyme", False)`, `request.get("line_count",
12)`, `request.get("reading_level")`). -/
structure ReqSnapshot where
  rhyme : Bool
  line_count : Int
  reading_level : Option String
deriving DecidableEq

/-- `(request.get("reading_level") or "general").lower()`. -/
def effectiveReadingLevel (r : ReqSnapshot) : String :=
  toLowerStr
    (match r.reading_level with
      | none => "general"
      | some s => if s = "" then "general" else s)

/-- One taste_profile row (updated_at omitted: wall-clock only). -/
structure TasteProfile where
  total_ratings : Nat
  prefer_rhyme_score : Rat
  avg_line_count : Rat
  reading_simple_count : Nat
  reading_general_count : Nat
  reading_advanced_count : Nat
  ending_soft_count : Nat
  ending_twist_count : Nat
  ending_punchline_count : Nat
  ending_hopeful_count : Nat
deriving DecidableEq

/-- The freshly inserted row (all column defaults 0). -/
def emptyTasteProfile : TasteProfile := ⟨0, 0, 0, 0, 0, 0, 0, 0, 0, 0⟩

/-- `(ending_pref or "").lower().strip()`. -/
def effectiveEnding (ending_pref : Option String) : String :=
  trimStr (toLowerStr (match ending_pref with | none => "" | some s => s))

/-- SQLiteStorage.update_taste_profile / PostgresStorage.update_taste_profile:
strength = rating - 3; rhyme_delta = ±strength by request.rhyme; running
mean over line_count; one reading-level counter bumped (general as the
default bucket); at most one ending counter bumped; total_ratings + 1.
The function performs no validation of `rating`. -/
def update_taste_profile (p : TasteProfile) (request : ReqSnapshot)
    (rating : Int) (ending_pref : Option String) : TasteProfile :=
  let strength : Int := rating - 3
  let rhyme_delta : Rat := if request.rhyme then (strength : Rat) else (-strength : Rat)
  let ending := effectiveEnding ending_pref
  let rl := effectiveReadingLevel request
  let total := p.total_ratings
  let new_total := total + 1
  let new_avg : Rat := (p.avg_line_count * (total : Rat) + (request.line_count : Rat)) / (new_total : Rat)
  { total_ratings := new_total
    prefer_rhyme_score := p.prefer_rhyme_score + rhyme_delta
    avg_line_count := new_avg
    reading_simple_count := if rl = "simple" then p.reading_simple_count + 1 else p.reading_simple_count
    reading_general_count :=
      if rl = "simple" then p.reading_general_count
      else if rl = "advanced" then p.reading_general_count
      else p.reading_general_count + 1
    reading_advanced_count :=
      if rl = "simple" then p.reading_advanced_count
      else if rl = "advanced" then p.reading_advanced_count + 1
      else p.reading_advanced_count
    ending_soft_count := if ending = "soft" then p.ending_soft_count + 1 else p.ending_soft_count
    ending_twist_count := if ending = "twist" then p.ending_twist_count + 1 else p.ending_twist_count
    ending_punchline_count := if ending = "punchline" then p.ending_punchline_count + 1 else p.ending_punchline_count
    ending_hopeful_count := if ending = "hopeful" then p.ending_hopeful_count + 1 else p.ending_hopeful_count }

/-- The range check in Storage.add_rating: `if rating < 1 or rating > 5:
raise ValueError("Rating must be 1..5")`. -/
def add_rating_check (rating : Int) : Except String Unit :=
  if rating < 1 ∨ 5 < rating then Except.error "Rating must be 1..5" else Except.ok ()

/-- The app's rating submission (src/app.py rating_form): add_rating runs
first and its range check aborts the whole submission before
update_taste_profile is reached. -/
def submit_rating (p : TasteProfile) (request : ReqSnapshot)
    (rating : Int) (ending_pref : Option String) : Except String TasteProfile :=
  match add_rating_check rating with
  | Except.error e => Except.error e
  | Except.ok _ => Except.ok (update_taste_profile p request rating ending_pref)

/-- A sequence of learner updates applied to the fresh profile. -/
def apply_updates (l : List (ReqSnapshot × Int × Option String)) : TasteProfile :=
  l.foldl (fun p u => update_taste_profile p u.1 u.2.1 u.2.2) emptyTasteProfile

/-- Python `max(counts, key=counts.get)` over an insertion-ordered dict:
the first key whose count no later key strictly exceeds. -/
def firstMax : List (String × Nat) → Option (String × Nat)
  | [] => none
  | x :: xs => some (xs.foldl (fun b kv => if kv.2 > b.2 then kv else b) x)

def reading_counts (p : TasteProfile) : List (String × Nat) :=
  [("simple", p.reading_simple_count), ("general", p.reading_general_count),
    ("advanced", p.reading_advanced_count)]

def ending_counts (p : TasteProfile) : List (String × Nat) :=
  [("soft", p.ending_soft_count), ("twist", p.ending_twist_count),
    ("punchline", p.ending_punchline_count), ("hopeful", p.ending_hopeful_count)]

/-- The read-only projection get_taste_profile returns (counts maps
included); `row = none` models the missing-row dict. -/
structure TasteView where
  total_ratings : Nat
  prefer_rhyme_score : Rat
  avg_line_count : Option Rat
  reading_level_guess : Option String
  ending_guess : Option String
  readingCountsView : List (String × Nat)
  endingCountsView : List (String × Nat)
deriving DecidableEq

/-- SQLiteStorage.get_taste_profile / PostgresStorage.get_taste_profile:
guesses are the argmax of the counters (first key wins ties, per dict
iteration order), absent while total_ratings = 0. -/
def get_taste_profile (row : Option TasteProfile) : TasteView :=
  match row with
  | none => ⟨0, 0, none, none, none, [], []⟩
  | some p =>
    ⟨p.total_ratings, p.prefer_rhyme_score, some p.avg_line_count,
      if p.total_ratings > 0 then (firstMax (reading_counts p)).map Prod.fst else none,
      if p.total_ratings > 0 then (firstMax (ending_counts p)).map Prod.fst else none,
      reading_counts p, ending_counts p⟩

/-- The rhyme hint build_user_memory (src/app.py) derives from
prefer_rhyme_score: strictly above +1, strictly below -1, or the dead
zone. -/
def rhyme_hint (score : Rat) : String :=
  if score > 1 then "prefers rhyme"
  else if score < -1 then "prefers no rhyme"
  else "no strong rhyme preference"

/-! ### Concrete inputs used by witnesses and counterexamples. -/

/-- A request snapshot with rhyme=true, line_count=10, reading_level="simple". -/
def reqSimple10 : ReqSnapshot := ⟨true, 10, some "simple"⟩

/-- A behaviour whose generate call succeeds and whose critique call fails
at the wrapper. -/
def behaviorCritFails : LlmBehavior :=
  ⟨Except.ok "a poem", Except.error "APIError: internal error", Except.ok "better"⟩

/-- A behaviour whose generate and critique wrapper calls succeed but whose
critic content is not decodable JSON, so the decode step fails. -/
def behaviorDecodeFails : LlmBehavior :=
  ⟨Except.ok "a poem", Except.ok "not json", Except.ok "better"⟩

/-- A valid bare Critique JSON text (braces written via code points). -/
def critJsonText : String :=
  "\x7b\"imagery_score\": 7, \"coherence_score\": 8, \"originality_score\": 9\x7d"

/-- The Critique value critJsonText denotes. -/
def critValue : Critique := ⟨[], [], 7, 8, 9, []⟩

/-- A behaviour for which every stage succeeds and the critic returns
valid JSON. -/
def behaviorAllOk : LlmBehavior :=
  ⟨Except.ok "a poem", Except.ok critJsonText, Except.ok "better"⟩

/-- A behaviour whose generate and critique stages succeed internally
(valid critic JSON included) but whose revise call fails. -/
def behaviorRevFails : LlmBehavior :=
  ⟨Except.ok "a poem", Except.ok critJsonText, Except.error "APIError: revise failed"⟩

/-- A unit of work that raises a transient-classified error on the first
two attempts and succeeds on the third. -/
def fnTransientTwice : Nat → Except ExcInfo String :=
  fun n => if n ≤ 2 then Except.error ⟨"TimeoutError", "request timed out"⟩ else Except.ok "poem text"

/-- A unit of work that always raises a non-transient error. -/
def fnAlwaysAuth : Nat → Except ExcInfo String :=
  fun _ => Except.error ⟨"AuthenticationError", "invalid api key"⟩

/-- Attempt durations (ms) used in the concrete wrapper runs. -/
def durC3 : Nat → Nat := fun _ => 5

/-- Backoff waits (ms) used in the concrete wrapper runs. -/
def waitC3 : Nat → Nat := fun n => 100 * n

/-! ### Predicates used by the statements and proofs below. -/

/-- The counter invariant of a taste_profile row: total_ratings equals the
sum of the reading-level counters and bounds the sum of the
ending-preference counters. -/
def tasteInv (p : TasteProfile) : Prop :=
  p.total_ratings =
      p.reading_simple_count + p.reading_general_count + p.reading_advanced_count ∧
    p.ending_soft_count + p.ending_twist_count + p.ending_punchline_count +
        p.ending_hopeful_count ≤ p.total_ratings

/-- The list does not begin with a digit (boundary condition under which a
parsed number re-parses identically when the remainder changes). -/
def nonDigitStart : List Char → Prop
  | [] => True
  | c :: _ => c.isDigit = false

/-- Boundary condition for re-running a parse with a different remainder:
only a numeric value constrains the remainder's first character. -/
def numGuard (v : JVal) (r2 : List Char) : Prop :=
  ∀ n, v = JVal.num n → nonDigitStart r2

/-! ### Locality predicates for the recursive-descent parser. -/

def JValConc (l : List Char) (v : JVal) (r : List Char) : Prop :=
  ∃ pre u, l = pre ++ r ∧ 1 ≤ u ∧ u ≤ (skipWs pre).length ∧
    (∀ ms, v = JVal.obj ms →
      ∃ mid, skipWs pre = lbraceChar :: (mid ++ [rbraceChar])) ∧
    ∀ fuel2 r2, u ≤ fuel2 → numGuard v r2 → parseJVal fuel2 (pre ++ r2) = some (v, r2)

def MemConc (l : List Char) (ms : List (String × JVal)) (r : List Char) : Prop :=
  ∃ pre u, l = pre ++ r ∧ 1 ≤ u ∧ u ≤ pre.length ∧
    (∃ pre0, pre = pre0 ++ [rbraceChar]) ∧
    ∀ fuel2 r2, u ≤ fuel2 → parseMemberSeq fuel2 (pre ++ r2) = some (ms, r2)

def ItemConc (l : List Char) (vs : List JVal) (r : List Char) : Prop :=
  ∃ pre u, l = pre ++ r ∧ 1 ≤ u ∧ u ≤ pre.length ∧
    (∃ pre0, pre = pre0 ++ [']']) ∧
    ∀ fuel2 r2, u ≤ fuel2 → parseItemSeq fuel2 (pre ++ r2) = some (vs, r2)

def proseBefore : String := "Here you go: "

def proseAfter : String := " thanks"

def rawNoPair : String := "the critic rambled and returned no json at all"

/-! ## Theorems -/

/-! ### Helper lemmas: the taste-profile counter invariant. -/

theorem update_preserves_tasteInv (p : TasteProfile) (request : ReqSnapshot)
    (rating : Int) (ending_pref : Option String) (h : tasteInv p) :
    tasteInv (update_taste_profile p request rating ending_pref) := by
  obtain ⟨h1, h2⟩ := h
  dsimp [tasteInv, update_taste_profile]
  constructor <;> split_ifs <;> first | omega | simp_all

theorem foldl_preserves_tasteInv
    (l : List (ReqSnapshot × Int × Option String)) :
    ∀ p : TasteProfile, tasteInv p →
      tasteInv (l.foldl (fun p u => update_taste_profile p u.1 u.2.1 u.2.2) p) := by
  induction l with
  | nil => intro p h; exact h
  | cons u rest ih =>
    intro p h
    exact ih _ (update_preserves_tasteInv p u.1 u.2.1 u.2.2 h)

/-! ### Claim theorems. -/

/-- C1 counterexample: calling update_taste_profile itself with the
out-of-range rating 6 does not fail and does not leave the profile
unchanged — it increments total_ratings from 0 to 1, because the function
performs no rating validation. -/
theorem c1_update_no_validation_counterexample :
    (update_taste_profile emptyTasteProfile reqSimple10 6 none).total_ratings = 1 ∧
      emptyTasteProfile.total_ratings = 0 :=
  ⟨rfl, rfl⟩

/-- C1 (amended): the [1,5] range check lives in add_rating, not in
update_taste_profile; the app's rating submission runs add_rating first,
so an out-of-range rating fails the whole submission before
update_taste_profile is reached and the stored profile is unchanged,
while update_taste_profile itself applies all six steps for any rating. -/
theorem c1_range_check_in_add_rating (p : TasteProfile) (request : ReqSnapshot)
    (rating : Int) (ending_pref : Option String)
    (h : rating < 1 ∨ 5 < rating) :
    submit_rating p request rating ending_pref = Except.error "Rating must be 1..5" ∧
      (update_taste_profile p request rating ending_pref).total_ratings =
        p.total_ratings + 1 := by
  constructor
  · simp only [submit_rating, add_rating_check, if_pos h]
  · rfl

/-- C1 witness: the amended statement at rating 6 on the empty profile. -/
theorem c1_range_check_witness :
    submit_rating emptyTasteProfile reqSimple10 6 none = Except.error "Rating must be 1..5" ∧
      (update_taste_profile emptyTasteProfile reqSimple10 6 none).total_ratings =
        emptyTasteProfile.total_ratings + 1 :=
  c1_range_check_in_add_rating emptyTasteProfile reqSimple10 6 none (Or.inr (by decide))

/-- C2: generate_only does not run GENERATE alone — it invokes the full
generate→critique→revise graph, so a critique-stage wrapper failure makes
generate_only return a failure envelope even though the generate call
succeeded. -/
theorem c2_generate_only_runs_full_graph :
    generate_only behaviorCritFails =
        { ok := false,
          error_user := some "Could not generate the poem. Please try again." } ∧
      behaviorCritFails.gen = Except.ok "a poem" :=
  ⟨rfl, rfl⟩

/-- C3: on a unit of work that raises a transient error twice then
succeeds, safe_invoke returns ok=true and latency_ms at least the
cumulative backoff, but retry_count = max(0, failures - 1) = 1, not the
2 retries actually consumed. -/
theorem c3_retry_count_off_by_one :
    (safe_invoke "rid" "err" fnTransientTwice durC3 waitC3).ok = true ∧
      (safe_invoke "rid" "err" fnTransientTwice durC3 waitC3).retry_count = 1 ∧
      (safe_invoke "rid" "err" fnTransientTwice durC3 waitC3).retry_count ≠ 2 ∧
      (safe_invoke "rid" "err" fnTransientTwice durC3 waitC3).latency_ms = some 315 ∧
      waitC3 1 + waitC3 2 ≤ 315 := by
  refine ⟨rfl, rfl, by decide, rfl, by decide⟩

/-- C4: whenever GENERATE succeeded internally but any later stage fails
— the CRITIQUE stage's wrapped call, the critique decode step, or the
REVISE stage's wrapped call — generate_and_improve returns a single
envelope with ok=false, the user-facing message, and poem, critique and
revised_poem all absent: earlier-stage outputs are discarded. -/
theorem c4_failure_discards_partial_results (b : LlmBehavior) (g : String)
    (hg : b.gen = Except.ok g)
    (hfail : (∃ e, b.crit = Except.error e) ∨
      (∃ craw e, b.crit = Except.ok craw ∧
        decodeCritique (trimStr craw) = Except.error e) ∨
      (∃ e, b.rev = Except.error e)) :
    generate_and_improve b =
      { ok := false,
        error_user := some "Could not improve the poem. Please try again." } := by
  have hfull : ∃ e2, full_graph_invoke b = Except.error e2 := by
    rcases hfail with ⟨e, hc⟩ | ⟨craw, e, hc, hd⟩ | ⟨e, hr⟩
    · exact ⟨e, by simp [full_graph_invoke, hg, hc]⟩
    · exact ⟨e, by simp [full_graph_invoke, hg, hc, hd]⟩
    · cases hcv : b.crit with
      | error e2 => exact ⟨e2, by simp [full_graph_invoke, hg, hcv]⟩
      | ok craw =>
        cases hd : decodeCritique (trimStr craw) with
        | error e2 => exact ⟨e2, by simp [full_graph_invoke, hg, hcv, hd]⟩
        | ok critique => exact ⟨e, by simp [full_graph_invoke, hg, hcv, hd, hr]⟩
  obtain ⟨e2, hfull⟩ := hfull
  simp [generate_and_improve, hfull]

/-- C4 witness: the three concrete failure modes after a successful
generate — critique wrapper failure, critic-JSON decode failure, and
revise wrapper failure — each produce the bare failure envelope. -/
theorem c4_failure_witness :
    generate_and_improve behaviorCritFails =
        { ok := false,
          error_user := some "Could not improve the poem. Please try again." } ∧
      generate_and_improve behaviorDecodeFails =
        { ok := false,
          error_user := some "Could not improve the poem. Please try again." } ∧
      generate_and_improve behaviorRevFails =
        { ok := false,
          error_user := some "Could not improve the poem. Please try again." } :=
  ⟨c4_failure_discards_partial_results behaviorCritFails "a poem" rfl
      (Or.inl ⟨"APIError: internal error", rfl⟩),
    c4_failure_discards_partial_results behaviorDecodeFails "a poem" rfl
      (Or.inr (Or.inl ⟨"not json",
        "critic_parse_failed: " ++ takeChars 200 (trimStr "not json"), rfl, rfl⟩)),
    c4_failure_discards_partial_results behaviorRevFails "a poem" rfl
      (Or.inr (Or.inr ⟨"APIError: revise failed", rfl⟩))⟩

/-- C5: on a unit of work that always raises a non-transient error,
safe_invoke performs exactly one attempt and returns ok=false with the
caller's fallback message as error_user and the exception class and text
confined to error_debug. -/
theorem c5_non_transient_aborts_first_attempt
    (fn : Nat → Except ExcInfo String) (e : ExcInfo) (rid uerr : String)
    (d w : Nat → Nat)
    (hfn : ∀ n, fn n = Except.error e) (ht : is_transient e.msg = false) :
    safe_invoke rid uerr fn d w =
        { ok := false, request_id := rid, error_user := some uerr,
          error_debug := some (e.name ++ ": " ++ e.msg),
          latency_ms := some (d 1), retry_count := 0 } ∧
      attemptsUsed fn = 1 := by
  have hloop : tenacityLoop fn 3 1 0 = (Except.error e, 1, 1) := by
    simp [tenacityLoop, hfn 1, ht]
  constructor
  · have hr : List.range 1 = [0] := rfl
    simp [safe_invoke, hloop, latencyOf, hr]
  · simp [attemptsUsed, hloop]

/-- C5 witness: the always-failing authentication error. -/
theorem c5_non_transient_witness :
    safe_invoke "rid" "boom" fnAlwaysAuth durC3 waitC3 =
        { ok := false, request_id := "rid", error_user := some "boom",
          error_debug := some ("AuthenticationError" ++ ": " ++ "invalid api key"),
          latency_ms := some (durC3 1), retry_count := 0 } ∧
      attemptsUsed fnAlwaysAuth = 1 :=
  c5_non_transient_aborts_first_attempt fnAlwaysAuth
    ⟨"AuthenticationError", "invalid api key"⟩ "rid" "boom" durC3 waitC3
    (fun _ => rfl) (by decide)

/-- C8: the projection derives the rhyme hint from prefer_rhyme_score by
the fixed thresholds (>+1 prefers rhyme, <-1 prefers no rhyme, dead zone
otherwise); and from the empty profile, one update with rating 5,
rhyme=true, line_count=10, reading_level="simple" projects to
prefer_rhyme_score=2 (hence "prefers rhyme"), avg_line_count=10,
reading-level guess "simple" and total_ratings=1. -/
theorem c8_projection_thresholds_and_first_rating :
    (∀ q : Rat,
        (1 < q → rhyme_hint q = "prefers rhyme") ∧
        (q < -1 → rhyme_hint q = "prefers no rhyme") ∧
        (-1 ≤ q → q ≤ 1 → rhyme_hint q = "no strong rhyme preference")) ∧
      (get_taste_profile (some (update_taste_profile emptyTasteProfile reqSimple10 5 none))).prefer_rhyme_score = 2 ∧
      rhyme_hint (get_taste_profile (some (update_taste_profile emptyTasteProfile reqSimple10 5 none))).prefer_rhyme_score = "prefers rhyme" ∧
      (get_taste_profile (some (update_taste_profile emptyTasteProfile reqSimple10 5 none))).avg_line_count = some 10 ∧
      (get_taste_profile (some (update_taste_profile emptyTasteProfile reqSimple10 5 none))).reading_level_guess = some "simple" ∧
      (get_taste_profile (some (update_taste_profile emptyTasteProfile reqSimple10 5 none))).total_ratings = 1 := by
  refine ⟨fun q => ⟨fun h => ?_, fun h => ?_, fun h1 h2 => ?_⟩, ?_, ?_, ?_, ?_, ?_⟩
  · simp [rhyme_hint, h]
  · have : ¬ (1 : Rat) < q := by linarith
    simp [rhyme_hint, this, h]
  · have hq1 : ¬ (1 : Rat) < q := by linarith
    have hq2 : ¬ q < (-1 : Rat) := by linarith
    simp [rhyme_hint, hq1, hq2]
  · simp [get_taste_profile, update_taste_profile, emptyTasteProfile, reqSimple10]
  · have hs :
        (get_taste_profile
            (some (update_taste_profile emptyTasteProfile reqSimple10 5 none))).prefer_rhyme_score = 2 := by
      simp [get_taste_profile, update_taste_profile, emptyTasteProfile, reqSimple10]
    rw [hs]
    norm_num [rhyme_hint]
  · simp [get_taste_profile, update_taste_profile, emptyTasteProfile, reqSimple10]
  · simp [get_taste_profile, update_taste_profile, emptyTasteProfile, reqSimple10,
      firstMax, reading_counts, effectiveReadingLevel, toLowerStr]
  · simp [get_taste_profile, update_taste_profile, emptyTasteProfile]

/-- C8 witness: the threshold implications at 2, -2 and 0. -/
theorem c8_projection_witness :
    rhyme_hint 2 = "prefers rhyme" ∧
      rhyme_hint (-2) = "prefers no rhyme" ∧
      rhyme_hint 0 = "no strong rhyme preference" :=
  ⟨(c8_projection_thresholds_and_first_rating.1 2).1 (by norm_num),
    (c8_projection_thresholds_and_first_rating.1 (-2)).2.1 (by norm_num),
    (c8_projection_thresholds_and_first_rating.1 0).2.2 (by norm_num) (by norm_num)⟩

/-- C9: after any sequence of update_taste_profile calls starting from the
fresh profile, total_ratings equals the sum of the three reading-level
counters and is at least the sum of the four ending-preference
counters. -/
theorem c9_counter_invariant (l : List (ReqSnapshot × Int × Option String)) :
    (apply_updates l).total_ratings =
        (apply_updates l).reading_simple_count + (apply_updates l).reading_general_count +
          (apply_updates l).reading_advanced_count ∧
      (apply_updates l).ending_soft_count + (apply_updates l).ending_twist_count +
          (apply_updates l).ending_punchline_count + (apply_updates l).ending_hopeful_count ≤
        (apply_updates l).total_ratings :=
  foldl_preserves_tasteInv l emptyTasteProfile ⟨rfl, Nat.le_refl 0⟩

/-- C10: a successful improve_again envelope never carries the poem field
— it is None — and populates exactly critique and revised_poem. -/
theorem c10_improve_again_omits_poem (b : LlmBehavior) (poem : String)
    (h : (improve_again b poem).ok = true) :
    (improve_again b poem).poem = none ∧
      (∃ c, (improve_again b poem).critique = some c) ∧
      (∃ r, (improve_again b poem).revised_poem = some r) := by
  revert h
  unfold improve_again
  cases improve_graph_invoke b poem with
  | ok st => intro _; exact ⟨rfl, ⟨st.critique, rfl⟩, ⟨st.revised_poem, rfl⟩⟩
  | error e => intro h; cases h

/-- C10 witness: the all-success behaviour with a valid critic JSON. -/
theorem c10_improve_again_witness :
    (improve_again behaviorAllOk "old poem").poem = none ∧
      (∃ c, (improve_again behaviorAllOk "old poem").critique = some c) ∧
      (∃ r, (improve_again behaviorAllOk "old poem").revised_poem = some r) :=
  c10_improve_again_omits_poem behaviorAllOk "old poem" rfl


/-! ### Parser locality and decode lemmas. -/

theorem dropWhile_append_all {p : Char → Bool} (xs ys : List Char)
    (h : ∀ c ∈ xs, p c = true) : (xs ++ ys).dropWhile p = ys.dropWhile p := by
  induction xs with
  | nil => rfl
  | cons a as ih =>
    simp only [List.cons_append, List.dropWhile_cons, h a (by simp)]
    exact ih (fun c hc => h c (by simp [hc]))

theorem dropWhile_cons_neg {p : Char → Bool} {c : Char} (h : p c = false)
    (cs : List Char) : (c :: cs).dropWhile p = c :: cs := by
  simp [List.dropWhile_cons, h]

theorem dropWhile_append_stop {p : Char → Bool} {xs : List Char} {c : Char}
    (hxs : ∀ x ∈ xs, p x = true) (hc : p c = false) (ys : List Char) :
    (xs ++ c :: ys).dropWhile p = c :: ys := by
  rw [dropWhile_append_all xs (c :: ys) hxs, dropWhile_cons_neg hc]

theorem takeWhile_append_all {p : Char → Bool} (xs ys : List Char)
    (h : ∀ c ∈ xs, p c = true) : (xs ++ ys).takeWhile p = xs ++ ys.takeWhile p := by
  induction xs with
  | nil => rfl
  | cons a as ih =>
    have ha : p a = true := h a (by simp)
    simp [List.takeWhile_cons, ha, ih (fun c hc => h c (by simp [hc]))]

theorem takeWhile_head_neg {p : Char → Bool} {ys : List Char}
    (h : ∀ c, ys.head? = some c → p c = false) : ys.takeWhile p = [] := by
  cases ys with
  | nil => rfl
  | cons a as => simp [List.takeWhile_cons, h a rfl]

theorem dropWhile_head_neg {p : Char → Bool} {ys : List Char}
    (h : ∀ c, ys.head? = some c → p c = false) : ys.dropWhile p = ys := by
  cases ys with
  | nil => rfl
  | cons a as => simp [List.dropWhile_cons, h a rfl]

theorem skipWs_ws_append {ws : List Char} (h : ∀ c ∈ ws, isWsChar c = true)
    (ys : List Char) : skipWs (ws ++ ys) = skipWs ys :=
  dropWhile_append_all ws ys h

theorem skipWs_stop {ws : List Char} {c : Char} (h : ∀ x ∈ ws, isWsChar x = true)
    (hc : isWsChar c = false) (ys : List Char) : skipWs (ws ++ c :: ys) = c :: ys :=
  dropWhile_append_stop h hc ys

theorem mem_takeWhile_ws {l : List Char} {c : Char}
    (h : c ∈ l.takeWhile isWsChar) : isWsChar c = true :=
  List.mem_takeWhile_imp h

theorem skipWs_eq_nil_iff {l : List Char} :
    skipWs l = [] ↔ ∀ c ∈ l, isWsChar c = true := by
  simp [skipWs, List.dropWhile_eq_nil_iff]

theorem quote_ne_backslash : quoteChar ≠ backslashChar := by decide

theorem backslash_ne_quote : backslashChar ≠ quoteChar := by decide

theorem parseStringBody_quote (rest : List Char) :
    parseStringBody (quoteChar :: rest) = some ([], rest) := by
  rw [parseStringBody.eq_def]
  simp

theorem parseStringBody_esc (e : Char) (rest2 : List Char) :
    parseStringBody (backslashChar :: e :: rest2) =
      (parseStringBody rest2).map (fun p => (escChar e :: p.1, p.2)) := by
  rw [parseStringBody.eq_def]
  simp [backslash_ne_quote]

theorem parseStringBody_esc_nil : parseStringBody [backslashChar] = none := by
  rw [parseStringBody.eq_def]
  simp [backslash_ne_quote]

theorem parseStringBody_plain {c : Char} (hq : ¬ c = quoteChar) (hb : ¬ c = backslashChar)
    (rest : List Char) :
    parseStringBody (c :: rest) = (parseStringBody rest).map (fun p => (c :: p.1, p.2)) := by
  rw [parseStringBody.eq_def]
  simp [hq, hb]

theorem parseStringBody_local : (l : List Char) → ∀ s r, parseStringBody l = some (s, r) →
    ∃ pre, l = pre ++ r ∧ 1 ≤ pre.length ∧ ∀ r2, parseStringBody (pre ++ r2) = some (s, r2)
  | [] => by
    intro s r h
    rw [parseStringBody.eq_def] at h
    cases h
  | c :: rest => by
    intro s r h
    by_cases hq : c = quoteChar
    · subst hq
      rw [parseStringBody_quote] at h
      rcases h with ⟨⟩
      refine ⟨[quoteChar], by simp, by simp, fun r2 => ?_⟩
      rw [show [quoteChar] ++ r2 = quoteChar :: r2 from rfl, parseStringBody_quote]
    · by_cases hb : c = backslashChar
      · subst hb
        rcases rest with _ | ⟨e, rest2⟩
        · rw [parseStringBody_esc_nil] at h
          cases h
        · rw [parseStringBody_esc] at h
          rcases hrec : parseStringBody rest2 with _ | ⟨s2, r2a⟩ <;> rw [hrec] at h
          · cases h
          · simp only [Option.map_some', Option.some.injEq, Prod.mk.injEq] at h
            obtain ⟨hs, hr⟩ := h
            obtain ⟨pre2, hpre2, hlen2, hre2⟩ := parseStringBody_local rest2 s2 r2a hrec
            refine ⟨backslashChar :: e :: pre2, by simp [hpre2, hr], by simp, fun r2 => ?_⟩
            rw [show (backslashChar :: e :: pre2) ++ r2 = backslashChar :: e :: (pre2 ++ r2) from rfl,
              parseStringBody_esc, hre2 r2]
            simp [hs]
      · rw [parseStringBody_plain hq hb] at h
        rcases hrec : parseStringBody rest with _ | ⟨s2, r2a⟩ <;> rw [hrec] at h
        · cases h
        · simp only [Option.map_some', Option.some.injEq, Prod.mk.injEq] at h
          obtain ⟨hs, hr⟩ := h
          obtain ⟨pre2, hpre2, hlen2, hre2⟩ := parseStringBody_local rest s2 r2a hrec
          refine ⟨c :: pre2, by simp [hpre2, hr], by simp, fun r2 => ?_⟩
          rw [show (c :: pre2) ++ r2 = c :: (pre2 ++ r2) from rfl,
            parseStringBody_plain hq hb, hre2 r2]
          simp [hs]
def parseJValLocal (fuel : Nat) : Prop :=
  ∀ l v r, parseJVal fuel l = some (v, r) →
    ∃ pre u, l = pre ++ r ∧ 1 ≤ u ∧ u ≤ (pre.dropWhile isWsChar).length ∧
      (∀ ms, v = JVal.obj ms →
        ∃ mid, pre.dropWhile isWsChar = lbraceChar :: (mid ++ [rbraceChar])) ∧
      ∀ fuel2 r2, u ≤ fuel2 → numGuard v r2 → parseJVal fuel2 (pre ++ r2) = some (v, r2)

def parseMemberSeqLocal (fuel : Nat) : Prop :=
  ∀ l ms r, parseMemberSeq fuel l = some (ms, r) →
    ∃ pre u, l = pre ++ r ∧ 1 ≤ u ∧ u ≤ pre.length ∧
      (∃ pre0, pre = pre0 ++ [rbraceChar]) ∧
      ∀ fuel2 r2, u ≤ fuel2 → parseMemberSeq fuel2 (pre ++ r2) = some (ms, r2)

def parseItemSeqLocal (fuel : Nat) : Prop :=
  ∀ l vs r, parseItemSeq fuel l = some (vs, r) →
    ∃ pre u, l = pre ++ r ∧ 1 ≤ u ∧ u ≤ pre.length ∧
      (∃ pre0, pre = pre0 ++ [']']) ∧
      ∀ fuel2 r2, u ≤ fuel2 → parseItemSeq fuel2 (pre ++ r2) = some (vs, r2)

theorem ws_char_cases {c : Char} (h : isWsChar c = true) :
    c = ' ' ∨ c = '\t' ∨ c = '\n' ∨ c = '\r' := by
  simp [isWsChar] at h
  tauto

theorem ws_not_digit {c : Char} (h : isWsChar c = true) : c.isDigit = false := by
  rcases ws_char_cases h with h | h | h | h <;> subst h <;> decide

theorem digit_not_ws {c : Char} (h : c.isDigit = true) : isWsChar c = false := by
  by_cases hw : isWsChar c = true
  · rw [ws_not_digit hw] at h; cases h
  · simpa using hw

theorem ws_ne_lbrace {c : Char} (h : isWsChar c = true) : c ≠ lbraceChar := by
  rcases ws_char_cases h with h | h | h | h <;> subst h <;> decide

theorem ws_ne_rbrace {c : Char} (h : isWsChar c = true) : c ≠ rbraceChar := by
  rcases ws_char_cases h with h | h | h | h <;> subst h <;> decide

theorem digit_ne_lbrace {c : Char} (h : c.isDigit = true) : c ≠ lbraceChar := by
  intro he; subst he; cases h

theorem digit_ne_lbrack {c : Char} (h : c.isDigit = true) : c ≠ '[' := by
  intro he; subst he; cases h

theorem digit_ne_quote {c : Char} (h : c.isDigit = true) : c ≠ quoteChar := by
  intro he; subst he; cases h

theorem dropWhile_head_false {p : Char → Bool} {l : List Char} {c : Char} {rT : List Char}
    (h : List.dropWhile p l = c :: rT) : p c = false := by
  induction l with
  | nil => cases h
  | cons a as ih =>
    rw [List.dropWhile_cons] at h
    by_cases ha : p a = true
    · rw [if_pos ha] at h
      exact ih h
    · rw [if_neg ha] at h
      cases h
      simpa using ha

theorem dropWhile_append_ne_nil {p : Char → Bool} {xs : List Char}
    (h : List.dropWhile p xs ≠ []) (ys : List Char) :
    List.dropWhile p (xs ++ ys) = List.dropWhile p xs ++ ys := by
  induction xs with
  | nil => simp at h
  | cons a as ih =>
    by_cases ha : p a = true
    · rw [List.dropWhile_cons, if_pos ha] at h
      rw [List.cons_append, List.dropWhile_cons, if_pos ha, List.dropWhile_cons, if_pos ha]
      exact ih h
    · rw [List.cons_append, List.dropWhile_cons, if_neg ha, List.dropWhile_cons, if_neg ha,
        List.cons_append]

theorem skipWs_decomp {l : List Char} {c : Char} {rT : List Char}
    (hsk : skipWs l = c :: rT) :
    ∃ ws, l = ws ++ c :: rT ∧ (∀ x ∈ ws, isWsChar x = true) ∧ isWsChar c = false := by
  refine ⟨l.takeWhile isWsChar, ?_, fun x hx => List.mem_takeWhile_imp hx,
    dropWhile_head_false hsk⟩
  conv_lhs => rw [← List.takeWhile_append_dropWhile (p := isWsChar) (l := l)]
  rw [show List.dropWhile isWsChar l = c :: rT from hsk]

theorem parseDigits_local {l : List Char} {n : Nat} {r : List Char}
    (h : parseDigits l = some (n, r)) :
    ∃ pre, l = pre ++ r ∧ 1 ≤ pre.length ∧ (∀ c ∈ pre, c.isDigit = true) ∧
      ∀ r2, nonDigitStart r2 → parseDigits (pre ++ r2) = some (n, r2) := by
  unfold parseDigits at h
  rcases hds : l.takeWhile Char.isDigit with _ | ⟨d, ds⟩ <;> rw [hds] at h
  · cases h
  · simp only [Option.some.injEq, Prod.mk.injEq] at h
    obtain ⟨hn, hr⟩ := h
    have hall : ∀ c ∈ d :: ds, c.isDigit = true := by
      intro c hc
      exact List.mem_takeWhile_imp (hds ▸ hc)
    refine ⟨d :: ds, ?_, by simp, hall, ?_⟩
    · conv_lhs => rw [← List.takeWhile_append_dropWhile (p := Char.isDigit) (l := l)]
      rw [hds, hr]
    · intro r2 hr2
      have hhead : ∀ c, r2.head? = some c → c.isDigit = false := by
        intro c hc
        cases r2 with
        | nil => cases hc
        | cons a as =>
          cases hc
          exact hr2
      unfold parseDigits
      rw [takeWhile_append_all _ _ hall, takeWhile_head_neg hhead, List.append_nil,
        dropWhile_append_all _ _ hall, dropWhile_head_neg hhead]
      simp [hn]

theorem parseKeyColon_local {l : List Char} {k : String} {r : List Char}
    (h : parseKeyColon l = some (k, r)) :
    ∃ pre, l = pre ++ r ∧ 1 ≤ pre.length ∧
      ∀ r2, parseKeyColon (pre ++ r2) = some (k, r2) := by
  unfold parseKeyColon at h
  split at h
  case h_2 => cases h
  case h_1 c rT hsk =>
    split at h
    case isFalse => cases h
    case isTrue hc =>
      subst hc
      split at h
      case h_1 => cases h
      case h_2 s r1 hsb =>
        split at h
        case h_2 => cases h
        case h_1 r2' hsk2 =>
          simp only [Option.some.injEq, Prod.mk.injEq] at h
          obtain ⟨hk, hr⟩ := h
          obtain ⟨wsA, hldec, hwsA, _⟩ := skipWs_decomp hsk
          obtain ⟨wsB, hr1dec, hwsB, _⟩ := skipWs_decomp hsk2
          obtain ⟨preSB, hpreSB, _, hreSB⟩ := parseStringBody_local rT s r1 hsb
          refine ⟨wsA ++ quoteChar :: (preSB ++ (wsB ++ [':'])), ?_,
            by simp only [List.length_append, List.length_cons]; omega, ?_⟩
          · rw [hldec, hpreSB, hr1dec, hr]
            simp
          · intro r2
            have harr : (wsA ++ quoteChar :: (preSB ++ (wsB ++ [':']))) ++ r2 =
                wsA ++ quoteChar :: (preSB ++ (wsB ++ ':' :: r2)) := by
              simp
            rw [harr]
            unfold parseKeyColon
            rw [skipWs_stop hwsA (by decide) _]
            dsimp only
            rw [if_pos rfl, hreSB _]
            show (match skipWs (wsB ++ ':' :: r2) with
              | ':' :: r2a => some (String.mk s, r2a)
              | _ => none) = some (k, r2)
            rw [skipWs_stop hwsB (by decide) _]
            show some (String.mk s, r2) = some (k, r2)
            rw [hk]
theorem parseJVal_succ (fuel : Nat) (l : List Char) : parseJVal (fuel + 1) l =
    match skipWs l with
    | [] => none
    | c :: r =>
      if c = lbraceChar then
        match skipWs r with
        | c2 :: r2 =>
          if c2 = rbraceChar then some (JVal.obj [], r2)
          else (parseMemberSeq fuel r).map (fun p => (JVal.obj p.1, p.2))
        | [] => none
      else if c = '[' then
        match skipWs r with
        | c2 :: r2 =>
          if c2 = ']' then some (JVal.arr [], r2)
          else (parseItemSeq fuel r).map (fun p => (JVal.arr p.1, p.2))
        | [] => none
      else if c = quoteChar then
        (parseStringBody r).map (fun p => (JVal.str (String.mk p.1), p.2))
      else if c.isDigit then
        (parseDigits (c :: r)).map (fun p => (JVal.num (p.1 : Int), p.2))
      else if c = '-' then
        (parseDigits r).map (fun p => (JVal.num (-(p.1 : Int)), p.2))
      else
        match c, r with
        | 'n', 'u' :: 'l' :: 'l' :: r3 => some (JVal.null, r3)
        | 't', 'r' :: 'u' :: 'e' :: r3 => some (JVal.bool true, r3)
        | 'f', 'a' :: 'l' :: 's' :: 'e' :: r3 => some (JVal.bool false, r3)
        | _, _ => none := rfl

theorem parseMemberSeq_succ (fuel : Nat) (l : List Char) : parseMemberSeq (fuel + 1) l =
    match parseKeyColon l with
    | none => none
    | some (k, r1) =>
      match parseJVal fuel r1 with
      | none => none
      | some (v, r2) =>
        match skipWs r2 with
        | c :: r3 =>
          if c = ',' then (parseMemberSeq fuel r3).map (fun p => ((k, v) :: p.1, p.2))
          else if c = rbraceChar then some ([(k, v)], r3)
          else none
        | [] => none := rfl

theorem parseItemSeq_succ (fuel : Nat) (l : List Char) : parseItemSeq (fuel + 1) l =
    match parseJVal fuel l with
    | none => none
    | some (v, r1) =>
      match skipWs r1 with
      | c :: r2 =>
        if c = ',' then (parseItemSeq fuel r2).map (fun p => (v :: p.1, p.2))
        else if c = ']' then some ([v], r2)
        else none
      | [] => none := rfl

theorem lv_obj_empty {l rT r : List Char}
    (hsk : skipWs l = lbraceChar :: rT) (hsk2 : skipWs rT = rbraceChar :: r) :
    JValConc l (JVal.obj []) r := by
  obtain ⟨wsA, hldec, hwsA, _⟩ := skipWs_decomp hsk
  obtain ⟨wsB, hrTdec, hwsB, _⟩ := skipWs_decomp hsk2
  refine ⟨wsA ++ lbraceChar :: (wsB ++ [rbraceChar]), 1, ?_, le_refl 1, ?_, ?_, ?_⟩
  · rw [hldec, hrTdec]
    simp
  · rw [skipWs_stop hwsA (by decide : isWsChar lbraceChar = false)]
    simp
  · intro ms _
    refine ⟨wsB, ?_⟩
    rw [skipWs_stop hwsA (by decide)]
  · intro fuel2 r2 hf2 _
    obtain ⟨f2, rfl⟩ : ∃ f2, fuel2 = f2 + 1 := ⟨fuel2 - 1, by omega⟩
    have hskre : skipWs (wsA ++ lbraceChar :: (wsB ++ rbraceChar :: r2)) =
        lbraceChar :: (wsB ++ rbraceChar :: r2) := skipWs_stop hwsA (by decide) _
    have hsk2re : skipWs (wsB ++ rbraceChar :: r2) = rbraceChar :: r2 :=
      skipWs_stop hwsB (by decide) _
    rw [parseJVal_succ]
    simp [hskre, hsk2re]

theorem lv_str {l rT sB r : List Char}
    (hsk : skipWs l = quoteChar :: rT) (hsb : parseStringBody rT = some (sB, r)) :
    JValConc l (JVal.str (String.mk sB)) r := by
  obtain ⟨wsA, hldec, hwsA, _⟩ := skipWs_decomp hsk
  obtain ⟨preSB, hpreSB, hlenSB, hreSB⟩ := parseStringBody_local rT sB r hsb
  refine ⟨wsA ++ quoteChar :: preSB, 1, ?_, le_refl 1, ?_, ?_, ?_⟩
  · rw [hldec, hpreSB]
    simp
  · rw [skipWs_stop hwsA (by decide : isWsChar quoteChar = false)]
    simp
  · intro ms hms
    cases hms
  · intro fuel2 r2 hf2 _
    obtain ⟨f2, rfl⟩ : ∃ f2, fuel2 = f2 + 1 := ⟨fuel2 - 1, by omega⟩
    have hskre : skipWs (wsA ++ quoteChar :: (preSB ++ r2)) =
        quoteChar :: (preSB ++ r2) := skipWs_stop hwsA (by decide) _
    rw [parseJVal_succ]
    simp [hskre, hreSB r2, (by decide : ¬ (quoteChar = lbraceChar)),
      (by decide : ¬ (quoteChar = '['))]
theorem skipWs_ne_nil_of_last {preM : List Char} {ch : Char}
    (hpre0 : ∃ pre0, preM = pre0 ++ [ch]) (hch : isWsChar ch = false) :
    skipWs preM ≠ [] := by
  obtain ⟨pre0, rfl⟩ := hpre0
  intro hnil
  unfold skipWs at hnil
  rw [List.dropWhile_eq_nil_iff] at hnil
  have := hnil ch (by simp)
  rw [hch] at this
  cases this

theorem skipWs_append_ne_nil {xs : List Char} (h : skipWs xs ≠ []) (ys : List Char) :
    skipWs (xs ++ ys) = skipWs xs ++ ys :=
  dropWhile_append_ne_nil h ys

theorem lv_obj_members {l rT : List Char} {c2 : Char} {r2T : List Char}
    {ms : List (String × JVal)} {r : List Char}
    (hsk : skipWs l = lbraceChar :: rT) (hsk2 : skipWs rT = c2 :: r2T)
    (hc2 : ¬ c2 = rbraceChar) (hMC : MemConc rT ms r) :
    JValConc l (JVal.obj ms) r := by
  obtain ⟨wsA, hldec, hwsA, _⟩ := skipWs_decomp hsk
  obtain ⟨preM, uM, hrTdec, huM1, huMle, ⟨pre0, hpre0⟩, hreM⟩ := hMC
  have hne : skipWs preM ≠ [] := skipWs_ne_nil_of_last ⟨pre0, hpre0⟩ (by decide)
  rcases hD : skipWs preM with _ | ⟨d0, D'⟩
  · exact absurd hD hne
  · have hx : skipWs rT = d0 :: (D' ++ r) := by
      rw [hrTdec, skipWs_append_ne_nil hne, hD, List.cons_append]
    rw [hsk2] at hx
    injection hx with h1 h2
    subst h1
    refine ⟨wsA ++ lbraceChar :: preM, 1 + uM, ?_, by omega, ?_, ?_, ?_⟩
    · rw [hldec, hrTdec]
      simp
    · rw [skipWs_stop hwsA (by decide : isWsChar lbraceChar = false)]
      simp only [List.length_cons]
      omega
    · intro ms2 _
      refine ⟨pre0, ?_⟩
      rw [skipWs_stop hwsA (by decide), hpre0]
    · intro fuel2 r2 hf2 _
      obtain ⟨f2, rfl⟩ : ∃ f2, fuel2 = f2 + 1 := ⟨fuel2 - 1, by omega⟩
      have hskre : skipWs (wsA ++ lbraceChar :: (preM ++ r2)) =
          lbraceChar :: (preM ++ r2) := skipWs_stop hwsA (by decide) _
      have hinner : skipWs (preM ++ r2) = c2 :: (D' ++ r2) := by
        rw [skipWs_append_ne_nil hne, hD, List.cons_append]
      have hmre : parseMemberSeq f2 (preM ++ r2) = some (ms, r2) := hreM f2 r2 (by omega)
      rw [parseJVal_succ]
      simp [hskre, hinner, hc2, hmre]

theorem lv_arr_empty {l rT r : List Char}
    (hsk : skipWs l = '[' :: rT) (hsk2 : skipWs rT = ']' :: r) :
    JValConc l (JVal.arr []) r := by
  obtain ⟨wsA, hldec, hwsA, _⟩ := skipWs_decomp hsk
  obtain ⟨wsB, hrTdec, hwsB, _⟩ := skipWs_decomp hsk2
  refine ⟨wsA ++ '[' :: (wsB ++ [']']), 1, ?_, le_refl 1, ?_, ?_, ?_⟩
  · rw [hldec, hrTdec]
    simp
  · rw [skipWs_stop hwsA (by decide : isWsChar '[' = false)]
    simp
  · intro ms hms
    cases hms
  · intro fuel2 r2 hf2 _
    obtain ⟨f2, rfl⟩ : ∃ f2, fuel2 = f2 + 1 := ⟨fuel2 - 1, by omega⟩
    have hskre : skipWs (wsA ++ '[' :: (wsB ++ ']' :: r2)) =
        '[' :: (wsB ++ ']' :: r2) := skipWs_stop hwsA (by decide) _
    have hsk2re : skipWs (wsB ++ ']' :: r2) = ']' :: r2 := skipWs_stop hwsB (by decide) _
    rw [parseJVal_succ]
    simp [hskre, hsk2re, (by decide : ¬ ('[' = lbraceChar))]

theorem lv_arr_items {l rT : List Char} {c2 : Char} {r2T : List Char}
    {vs : List JVal} {r : List Char}
    (hsk : skipWs l = '[' :: rT) (hsk2 : skipWs rT = c2 :: r2T)
    (hc2 : ¬ c2 = ']') (hIC : ItemConc rT vs r) :
    JValConc l (JVal.arr vs) r := by
  obtain ⟨wsA, hldec, hwsA, _⟩ := skipWs_decomp hsk
  obtain ⟨preI, uI, hrTdec, huI1, huIle, ⟨pre0, hpre0⟩, hreI⟩ := hIC
  have hne : skipWs preI ≠ [] := skipWs_ne_nil_of_last ⟨pre0, hpre0⟩ (by decide)
  rcases hD : skipWs preI with _ | ⟨d0, D'⟩
  · exact absurd hD hne
  · have hx : skipWs rT = d0 :: (D' ++ r) := by
      rw [hrTdec, skipWs_append_ne_nil hne, hD, List.cons_append]
    rw [hsk2] at hx
    injection hx with h1 h2
    subst h1
    refine ⟨wsA ++ '[' :: preI, 1 + uI, ?_, by omega, ?_, ?_, ?_⟩
    · rw [hldec, hrTdec]
      simp
    · rw [skipWs_stop hwsA (by decide : isWsChar '[' = false)]
      simp only [List.length_cons]
      omega
    · intro ms2 hms
      cases hms
    · intro fuel2 r2 hf2 _
      obtain ⟨f2, rfl⟩ : ∃ f2, fuel2 = f2 + 1 := ⟨fuel2 - 1, by omega⟩
      have hskre : skipWs (wsA ++ '[' :: (preI ++ r2)) =
          '[' :: (preI ++ r2) := skipWs_stop hwsA (by decide) _
      have hinner : skipWs (preI ++ r2) = c2 :: (D' ++ r2) := by
        rw [skipWs_append_ne_nil hne, hD, List.cons_append]
      have hire : parseItemSeq f2 (preI ++ r2) = some (vs, r2) := hreI f2 r2 (by omega)
      rw [parseJVal_succ]
      simp [hskre, hinner, hc2, hire, (by decide : ¬ ('[' = lbraceChar))]

theorem lv_digit {l : List Char} {c : Char} {rT : List Char} {n : Nat} {r : List Char}
    (hsk : skipWs l = c :: rT) (hd : c.isDigit = true)
    (hdg : parseDigits (c :: rT) = some (n, r)) :
    JValConc l (JVal.num (n : Int)) r := by
  obtain ⟨wsA, hldec, hwsA, _⟩ := skipWs_decomp hsk
  obtain ⟨preD, hpreD, hlenD, hallD, hreD⟩ := parseDigits_local hdg
  rcases preD with _ | ⟨d0, preD'⟩
  · simp at hlenD
  · rw [List.cons_append] at hpreD
    obtain ⟨rfl, hrT⟩ : d0 = c ∧ rT = preD' ++ r := by
      have := (List.cons.injEq .. |>.mp hpreD)
      exact ⟨this.1.symm, this.2⟩
    refine ⟨wsA ++ d0 :: preD', 1, ?_, le_refl 1, ?_, ?_, ?_⟩
    · rw [hldec, hrT]
      simp
    · rw [skipWs_stop hwsA (digit_not_ws hd)]
      simp
    · intro ms hms
      cases hms
    · intro fuel2 r2 hf2 hguard
      have hnds : nonDigitStart r2 := hguard _ rfl
      obtain ⟨f2, rfl⟩ : ∃ f2, fuel2 = f2 + 1 := ⟨fuel2 - 1, by omega⟩
      have hskre : skipWs (wsA ++ d0 :: (preD' ++ r2)) = d0 :: (preD' ++ r2) :=
        skipWs_stop hwsA (digit_not_ws hd) _
      have hdre : parseDigits (d0 :: (preD' ++ r2)) = some (n, r2) := by
        have hx := hreD r2 hnds
        rw [List.cons_append] at hx
        exact hx
      rw [parseJVal_succ]
      simp [hskre, hdre, digit_ne_lbrace hd, digit_ne_lbrack hd, digit_ne_quote hd, hd]

theorem lv_dash {l rT : List Char} {n : Nat} {r : List Char}
    (hsk : skipWs l = '-' :: rT) (hdg : parseDigits rT = some (n, r)) :
    JValConc l (JVal.num (-(n : Int))) r := by
  obtain ⟨wsA, hldec, hwsA, _⟩ := skipWs_decomp hsk
  obtain ⟨preD, hpreD, hlenD, hallD, hreD⟩ := parseDigits_local hdg
  refine ⟨wsA ++ '-' :: preD, 1, ?_, le_refl 1, ?_, ?_, ?_⟩
  · rw [hldec, hpreD]
    simp
  · rw [skipWs_stop hwsA (by decide : isWsChar '-' = false)]
    simp
  · intro ms hms
    cases hms
  · intro fuel2 r2 hf2 hguard
    have hnds : nonDigitStart r2 := hguard _ rfl
    obtain ⟨f2, rfl⟩ : ∃ f2, fuel2 = f2 + 1 := ⟨fuel2 - 1, by omega⟩
    have hskre : skipWs (wsA ++ '-' :: (preD ++ r2)) = '-' :: (preD ++ r2) :=
      skipWs_stop hwsA (by decide) _
    have hdre : parseDigits (preD ++ r2) = some (n, r2) := hreD r2 hnds
    rw [parseJVal_succ]
    simp [hskre, hdre, (by decide : ¬ ('-' = lbraceChar)), (by decide : ¬ ('-' = '[')),
      (by decide : ¬ ('-' = quoteChar)), (by decide : ('-').isDigit = false)]

theorem lv_null {l r : List Char} (hsk : skipWs l = 'n' :: 'u' :: 'l' :: 'l' :: r) :
    JValConc l JVal.null r := by
  obtain ⟨wsA, hldec, hwsA, _⟩ := skipWs_decomp hsk
  refine ⟨wsA ++ 'n' :: 'u' :: 'l' :: 'l' :: [], 1, ?_, le_refl 1, ?_, ?_, ?_⟩
  · rw [hldec]
    simp
  · rw [skipWs_stop hwsA (by decide : isWsChar 'n' = false)]
    simp
  · intro ms hms
    cases hms
  · intro fuel2 r2 hf2 _
    obtain ⟨f2, rfl⟩ : ∃ f2, fuel2 = f2 + 1 := ⟨fuel2 - 1, by omega⟩
    have hskre : skipWs (wsA ++ 'n' :: 'u' :: 'l' :: 'l' :: r2) =
        'n' :: 'u' :: 'l' :: 'l' :: r2 := skipWs_stop hwsA (by decide) _
    rw [parseJVal_succ]
    simp [hskre, (by decide : ¬ ('n' = lbraceChar)), (by decide : ¬ ('n' = '[')),
      (by decide : ¬ ('n' = quoteChar)), (by decide : ('n').isDigit = false),
      (by decide : ¬ ('n' = '-'))]

theorem lv_true {l r : List Char} (hsk : skipWs l = 't' :: 'r' :: 'u' :: 'e' :: r) :
    JValConc l (JVal.bool true) r := by
  obtain ⟨wsA, hldec, hwsA, _⟩ := skipWs_decomp hsk
  refine ⟨wsA ++ 't' :: 'r' :: 'u' :: 'e' :: [], 1, ?_, le_refl 1, ?_, ?_, ?_⟩
  · rw [hldec]
    simp
  · rw [skipWs_stop hwsA (by decide : isWsChar 't' = false)]
    simp
  · intro ms hms
    cases hms
  · intro fuel2 r2 hf2 _
    obtain ⟨f2, rfl⟩ : ∃ f2, fuel2 = f2 + 1 := ⟨fuel2 - 1, by omega⟩
    have hskre : skipWs (wsA ++ 't' :: 'r' :: 'u' :: 'e' :: r2) =
        't' :: 'r' :: 'u' :: 'e' :: r2 := skipWs_stop hwsA (by decide) _
    rw [parseJVal_succ]
    simp [hskre, (by decide : ¬ ('t' = lbraceChar)), (by decide : ¬ ('t' = '[')),
      (by decide : ¬ ('t' = quoteChar)), (by decide : ('t').isDigit = false),
      (by decide : ¬ ('t' = '-'))]

theorem lv_false {l r : List Char} (hsk : skipWs l = 'f' :: 'a' :: 'l' :: 's' :: 'e' :: r) :
    JValConc l (JVal.bool false) r := by
  obtain ⟨wsA, hldec, hwsA, _⟩ := skipWs_decomp hsk
  refine ⟨wsA ++ 'f' :: 'a' :: 'l' :: 's' :: 'e' :: [], 1, ?_, le_refl 1, ?_, ?_, ?_⟩
  · rw [hldec]
    simp
  · rw [skipWs_stop hwsA (by decide : isWsChar 'f' = false)]
    simp
  · intro ms hms
    cases hms
  · intro fuel2 r2 hf2 _
    obtain ⟨f2, rfl⟩ : ∃ f2, fuel2 = f2 + 1 := ⟨fuel2 - 1, by omega⟩
    have hskre : skipWs (wsA ++ 'f' :: 'a' :: 'l' :: 's' :: 'e' :: r2) =
        'f' :: 'a' :: 'l' :: 's' :: 'e' :: r2 := skipWs_stop hwsA (by decide) _
    rw [parseJVal_succ]
    simp [hskre, (by decide : ¬ ('f' = lbraceChar)), (by decide : ¬ ('f' = '[')),
      (by decide : ¬ ('f' = quoteChar)), (by decide : ('f').isDigit = false),
      (by decide : ¬ ('f' = '-'))]
theorem skipWs_length_le (l : List Char) : (skipWs l).length ≤ l.length :=
  List.Sublist.length_le (List.dropWhile_sublist _)

theorem lm_cons {l : List Char} {k : String} {r1 : List Char} {v : JVal}
    {r2v : List Char} {r3 : List Char} {msR : List (String × JVal)} {r : List Char}
    (hkc : parseKeyColon l = some (k, r1))
    (hJC : JValConc r1 v r2v)
    (hsk : skipWs r2v = ',' :: r3)
    (hMC : MemConc r3 msR r) :
    MemConc l ((k, v) :: msR) r := by
  obtain ⟨preKC, hlKC, hlenKC, hreKC⟩ := parseKeyColon_local hkc
  obtain ⟨preV, uV, hr1dec, huV1, huVle, _, hreV⟩ := hJC
  obtain ⟨wsC, hr2vdec, hwsC, _⟩ := skipWs_decomp hsk
  obtain ⟨preR, uR, hr3dec, huR1, huRle, ⟨pre0, hpre0⟩, hreR⟩ := hMC
  have huVlen : uV ≤ preV.length := le_trans huVle (skipWs_length_le preV)
  refine ⟨preKC ++ (preV ++ (wsC ++ ',' :: preR)), 1 + uV + uR, ?_, by omega, ?_, ?_, ?_⟩
  · rw [hlKC, hr1dec, hr2vdec, hr3dec]
    simp
  · simp only [List.length_append, List.length_cons]
    omega
  · refine ⟨preKC ++ (preV ++ (wsC ++ ',' :: pre0)), ?_⟩
    rw [hpre0]
    simp
  · intro fuel2 r2 hf2
    obtain ⟨f2, rfl⟩ : ∃ f2, fuel2 = f2 + 1 := ⟨fuel2 - 1, by omega⟩
    have hkcre : parseKeyColon (preKC ++ (preV ++ (wsC ++ ',' :: (preR ++ r2)))) =
        some (k, preV ++ (wsC ++ ',' :: (preR ++ r2))) := hreKC _
    have hvre : parseJVal f2 (preV ++ (wsC ++ ',' :: (preR ++ r2))) =
        some (v, wsC ++ ',' :: (preR ++ r2)) := by
      apply hreV f2 _ (by omega)
      intro n hn
      rcases wsC with _ | ⟨w0, wsC'⟩
      · exact (by decide : (',').isDigit = false)
      · exact ws_not_digit (hwsC w0 (by simp))
    have hskre : skipWs (wsC ++ ',' :: (preR ++ r2)) = ',' :: (preR ++ r2) :=
      skipWs_stop hwsC (by decide) _
    have hmre : parseMemberSeq f2 (preR ++ r2) = some (msR, r2) := hreR f2 r2 (by omega)
    rw [parseMemberSeq_succ]
    simp [hkcre, hvre, hskre, hmre]

theorem lm_last {l : List Char} {k : String} {r1 : List Char} {v : JVal}
    {r2v : List Char} {r : List Char}
    (hkc : parseKeyColon l = some (k, r1))
    (hJC : JValConc r1 v r2v)
    (hsk : skipWs r2v = rbraceChar :: r) :
    MemConc l [(k, v)] r := by
  obtain ⟨preKC, hlKC, hlenKC, hreKC⟩ := parseKeyColon_local hkc
  obtain ⟨preV, uV, hr1dec, huV1, huVle, _, hreV⟩ := hJC
  obtain ⟨wsC, hr2vdec, hwsC, _⟩ := skipWs_decomp hsk
  have huVlen : uV ≤ preV.length := le_trans huVle (skipWs_length_le preV)
  refine ⟨preKC ++ (preV ++ (wsC ++ [rbraceChar])), 1 + uV, ?_, by omega, ?_, ?_, ?_⟩
  · rw [hlKC, hr1dec, hr2vdec]
    simp
  · simp only [List.length_append, List.length_cons]
    omega
  · refine ⟨preKC ++ (preV ++ wsC), ?_⟩
    simp
  · intro fuel2 r2 hf2
    obtain ⟨f2, rfl⟩ : ∃ f2, fuel2 = f2 + 1 := ⟨fuel2 - 1, by omega⟩
    have hkcre : parseKeyColon (preKC ++ (preV ++ (wsC ++ rbraceChar :: r2))) =
        some (k, preV ++ (wsC ++ rbraceChar :: r2)) := hreKC _
    have hvre : parseJVal f2 (preV ++ (wsC ++ rbraceChar :: r2)) =
        some (v, wsC ++ rbraceChar :: r2) := by
      apply hreV f2 _ (by omega)
      intro n hn
      rcases wsC with _ | ⟨w0, wsC'⟩
      · exact (by decide : rbraceChar.isDigit = false)
      · exact ws_not_digit (hwsC w0 (by simp))
    have hskre : skipWs (wsC ++ rbraceChar :: r2) = rbraceChar :: r2 :=
      skipWs_stop hwsC (by decide) _
    rw [parseMemberSeq_succ]
    simp [hkcre, hvre, hskre, (by decide : ¬ (rbraceChar = ','))]

theorem li_cons {l : List Char} {v : JVal} {r1v : List Char} {r2i : List Char}
    {vsR : List JVal} {r : List Char}
    (hJC : JValConc l v r1v)
    (hsk : skipWs r1v = ',' :: r2i)
    (hIC : ItemConc r2i vsR r) :
    ItemConc l (v :: vsR) r := by
  obtain ⟨preV, uV, hldec, huV1, huVle, _, hreV⟩ := hJC
  obtain ⟨wsC, hr1vdec, hwsC, _⟩ := skipWs_decomp hsk
  obtain ⟨preR, uR, hr2idec, huR1, huRle, ⟨pre0, hpre0⟩, hreR⟩ := hIC
  have huVlen : uV ≤ preV.length := le_trans huVle (skipWs_length_le preV)
  refine ⟨preV ++ (wsC ++ ',' :: preR), 1 + uV + uR, ?_, by omega, ?_, ?_, ?_⟩
  · rw [hldec, hr1vdec, hr2idec]
    simp
  · simp only [List.length_append, List.length_cons]
    omega
  · refine ⟨preV ++ (wsC ++ ',' :: pre0), ?_⟩
    rw [hpre0]
    simp
  · intro fuel2 r2 hf2
    obtain ⟨f2, rfl⟩ : ∃ f2, fuel2 = f2 + 1 := ⟨fuel2 - 1, by omega⟩
    have hvre : parseJVal f2 (preV ++ (wsC ++ ',' :: (preR ++ r2))) =
        some (v, wsC ++ ',' :: (preR ++ r2)) := by
      apply hreV f2 _ (by omega)
      intro n hn
      rcases wsC with _ | ⟨w0, wsC'⟩
      · exact (by decide : (',').isDigit = false)
      · exact ws_not_digit (hwsC w0 (by simp))
    have hskre : skipWs (wsC ++ ',' :: (preR ++ r2)) = ',' :: (preR ++ r2) :=
      skipWs_stop hwsC (by decide) _
    have hire : parseItemSeq f2 (preR ++ r2) = some (vsR, r2) := hreR f2 r2 (by omega)
    rw [parseItemSeq_succ]
    simp [hvre, hskre, hire]

theorem li_last {l : List Char} {v : JVal} {r1v : List Char} {r : List Char}
    (hJC : JValConc l v r1v)
    (hsk : skipWs r1v = ']' :: r) :
    ItemConc l [v] r := by
  obtain ⟨preV, uV, hldec, huV1, huVle, _, hreV⟩ := hJC
  obtain ⟨wsC, hr1vdec, hwsC, _⟩ := skipWs_decomp hsk
  have huVlen : uV ≤ preV.length := le_trans huVle (skipWs_length_le preV)
  refine ⟨preV ++ (wsC ++ [']']), 1 + uV, ?_, by omega, ?_, ?_, ?_⟩
  · rw [hldec, hr1vdec]
    simp
  · simp only [List.length_append, List.length_cons]
    omega
  · refine ⟨preV ++ wsC, ?_⟩
    simp
  · intro fuel2 r2 hf2
    obtain ⟨f2, rfl⟩ : ∃ f2, fuel2 = f2 + 1 := ⟨fuel2 - 1, by omega⟩
    have hvre : parseJVal f2 (preV ++ (wsC ++ ']' :: r2)) =
        some (v, wsC ++ ']' :: r2) := by
      apply hreV f2 _ (by omega)
      intro n hn
      rcases wsC with _ | ⟨w0, wsC'⟩
      · exact (by decide : (']').isDigit = false)
      · exact ws_not_digit (hwsC w0 (by simp))
    have hskre : skipWs (wsC ++ ']' :: r2) = ']' :: r2 :=
      skipWs_stop hwsC (by decide) _
    rw [parseItemSeq_succ]
    simp [hvre, hskre, (by decide : ¬ (']' = ','))]
theorem lv_succ (f : Nat) (ihM : parseMemberSeqLocal f) (ihI : parseItemSeqLocal f) :
    parseJValLocal (f + 1) := by
  intro l v r h
  rw [parseJVal_succ] at h
  split at h
  next hsk => cases h
  next c rT hsk =>
    by_cases hbr : c = lbraceChar
    · subst hbr
      rw [if_pos rfl] at h
      split at h
      next c2 r2T hsk2 =>
        by_cases hc2 : c2 = rbraceChar
        · subst hc2
          rw [if_pos rfl] at h
          simp only [Option.some.injEq, Prod.mk.injEq] at h
          obtain ⟨rfl, rfl⟩ := h
          exact lv_obj_empty hsk hsk2
        · rw [if_neg hc2] at h
          rcases hms : parseMemberSeq f rT with _ | ⟨ms, rr⟩ <;> rw [hms] at h
          · cases h
          · simp only [Option.map_some', Option.some.injEq, Prod.mk.injEq] at h
            obtain ⟨rfl, rfl⟩ := h
            exact lv_obj_members hsk hsk2 hc2 (ihM rT ms rr hms)
      next hsk2 => cases h
    · rw [if_neg hbr] at h
      by_cases hbk : c = '['
      · subst hbk
        rw [if_pos rfl] at h
        split at h
        next c2 r2T hsk2 =>
          by_cases hc2 : c2 = ']'
          · subst hc2
            rw [if_pos rfl] at h
            simp only [Option.some.injEq, Prod.mk.injEq] at h
            obtain ⟨rfl, rfl⟩ := h
            exact lv_arr_empty hsk hsk2
          · rw [if_neg hc2] at h
            rcases hvs : parseItemSeq f rT with _ | ⟨vs, rr⟩ <;> rw [hvs] at h
            · cases h
            · simp only [Option.map_some', Option.some.injEq, Prod.mk.injEq] at h
              obtain ⟨rfl, rfl⟩ := h
              exact lv_arr_items hsk hsk2 hc2 (ihI rT vs rr hvs)
        next hsk2 => cases h
      · rw [if_neg hbk] at h
        by_cases hq : c = quoteChar
        · subst hq
          rw [if_pos rfl] at h
          rcases hsb : parseStringBody rT with _ | ⟨sB, r1⟩ <;> rw [hsb] at h
          · cases h
          · simp only [Option.map_some', Option.some.injEq, Prod.mk.injEq] at h
            obtain ⟨rfl, rfl⟩ := h
            exact lv_str hsk hsb
        · rw [if_neg hq] at h
          by_cases hd : c.isDigit = true
          · rw [if_pos hd] at h
            rcases hdg : parseDigits (c :: rT) with _ | ⟨n, rD⟩ <;> rw [hdg] at h
            · cases h
            · simp only [Option.map_some', Option.some.injEq, Prod.mk.injEq] at h
              obtain ⟨rfl, rfl⟩ := h
              exact lv_digit hsk hd hdg
          · rw [if_neg hd] at h
            by_cases hdash : c = '-'
            · subst hdash
              rw [if_pos rfl] at h
              rcases hdg : parseDigits rT with _ | ⟨n, rD⟩ <;> rw [hdg] at h
              · cases h
              · simp only [Option.map_some', Option.some.injEq, Prod.mk.injEq] at h
                obtain ⟨rfl, rfl⟩ := h
                exact lv_dash hsk hdg
            · rw [if_neg hdash] at h
              split at h
              next r3 =>
                simp only [Option.some.injEq, Prod.mk.injEq] at h
                obtain ⟨rfl, rfl⟩ := h
                exact lv_null hsk
              next r3 =>
                simp only [Option.some.injEq, Prod.mk.injEq] at h
                obtain ⟨rfl, rfl⟩ := h
                exact lv_true hsk
              next r3 =>
                simp only [Option.some.injEq, Prod.mk.injEq] at h
                obtain ⟨rfl, rfl⟩ := h
                exact lv_false hsk
              next => cases h

theorem lm_succ (f : Nat) (ihV : parseJValLocal f) (ihM : parseMemberSeqLocal f) :
    parseMemberSeqLocal (f + 1) := by
  intro l ms r h
  rw [parseMemberSeq_succ] at h
  split at h
  next hkc => cases h
  next k r1 hkc =>
    split at h
    next hv => cases h
    next v r2v hv =>
      split at h
      next c r3 hsk =>
        by_cases hcm : c = ','
        · subst hcm
          rw [if_pos rfl] at h
          rcases hrec : parseMemberSeq f r3 with _ | ⟨msR, rr⟩ <;> rw [hrec] at h
          · cases h
          · simp only [Option.map_some', Option.some.injEq, Prod.mk.injEq] at h
            obtain ⟨rfl, rfl⟩ := h
            exact lm_cons hkc (ihV r1 v r2v hv) hsk (ihM r3 msR rr hrec)
        · rw [if_neg hcm] at h
          by_cases hcb : c = rbraceChar
          · subst hcb
            rw [if_pos rfl] at h
            simp only [Option.some.injEq, Prod.mk.injEq] at h
            obtain ⟨rfl, rfl⟩ := h
            exact lm_last hkc (ihV r1 v r2v hv) hsk
          · rw [if_neg hcb] at h
            cases h
      next hsk => cases h

theorem li_succ (f : Nat) (ihV : parseJValLocal f) (ihI : parseItemSeqLocal f) :
    parseItemSeqLocal (f + 1) := by
  intro l vs r h
  rw [parseItemSeq_succ] at h
  split at h
  next hv => cases h
  next v r1v hv =>
    split at h
    next c r2i hsk =>
      by_cases hcm : c = ','
      · subst hcm
        rw [if_pos rfl] at h
        rcases hrec : parseItemSeq f r2i with _ | ⟨vsR, rr⟩ <;> rw [hrec] at h
        · cases h
        · simp only [Option.map_some', Option.some.injEq, Prod.mk.injEq] at h
          obtain ⟨rfl, rfl⟩ := h
          exact li_cons (ihV l v r1v hv) hsk (ihI r2i vsR rr hrec)
      · rw [if_neg hcm] at h
        by_cases hcb : c = ']'
        · subst hcb
          rw [if_pos rfl] at h
          simp only [Option.some.injEq, Prod.mk.injEq] at h
          obtain ⟨rfl, rfl⟩ := h
          exact li_last (ihV l v r1v hv) hsk
        · rw [if_neg hcb] at h
          cases h
    next hsk => cases h

theorem parse_local_all :
    ∀ fuel, parseJValLocal fuel ∧ parseMemberSeqLocal fuel ∧ parseItemSeqLocal fuel := by
  intro fuel
  induction fuel with
  | zero =>
    refine ⟨?_, ?_, ?_⟩ <;> intro l a r h <;> cases h
  | succ f ih =>
    exact ⟨lv_succ f ih.2.1 ih.2.2, lm_succ f ih.1 ih.2.1, li_succ f ih.1 ih.2.2⟩
theorem parseJVal_congr (fuel : Nat) {l1 l2 : List Char} (h : skipWs l1 = skipWs l2) :
    parseJVal fuel l1 = parseJVal fuel l2 := by
  cases fuel with
  | zero => rfl
  | succ f =>
    rw [parseJVal_succ, parseJVal_succ]
    simp only [h]

theorem strictParseCritique_ok {s : String} {c : Critique} :
    strictParseCritique s = Except.ok c ↔
      ∃ v rest, parseJVal (s.length + 1) s.data = some (v, rest) ∧ skipWs rest = [] ∧
        validateCritique v = Except.ok c := by
  constructor
  · intro h
    unfold strictParseCritique jsonParse at h
    split at h
    next v hp =>
      split at hp
      next v2 rest hp2 =>
        by_cases hws : skipWs rest = []
        · rw [if_pos hws] at hp
          injection hp with hp3
          subst hp3
          exact ⟨v2, rest, hp2, hws, h⟩
        · rw [if_neg hws] at hp
          cases hp
      next hp2 => cases hp
    next hp => cases h
  · rintro ⟨v, rest, hp, hws, hval⟩
    unfold strictParseCritique jsonParse
    rw [hp]
    show (match (if skipWs rest = [] then some v else none) with
      | some v => validateCritique v
      | none => Except.error "json_invalid") = Except.ok c
    rw [if_pos hws]
    exact hval

theorem validateCritique_obj {v : JVal} {c : Critique}
    (h : validateCritique v = Except.ok c) : ∃ ms, v = JVal.obj ms := by
  cases v with
  | obj ms => exact ⟨ms, rfl⟩
  | null => cases h
  | bool b => cases h
  | num n => cases h
  | str s => cases h
  | arr a => cases h

theorem strict_shape {t : String} {c : Critique} (h : strictParseCritique t = Except.ok c) :
    ∃ wsL core rest v u,
      t.data = wsL ++ (core ++ rest) ∧
      (∀ x ∈ wsL, isWsChar x = true) ∧
      (∃ mid, core = lbraceChar :: (mid ++ [rbraceChar])) ∧
      (∀ x ∈ rest, isWsChar x = true) ∧
      validateCritique v = Except.ok c ∧
      1 ≤ u ∧ u ≤ core.length ∧
      (∀ fuel2 r2, u ≤ fuel2 → parseJVal fuel2 (core ++ r2) = some (v, r2)) := by
  obtain ⟨v, rest, hp, hws, hval⟩ := strictParseCritique_ok.mp h
  obtain ⟨ms, rfl⟩ := validateCritique_obj hval
  obtain ⟨pre, u, hdec, hu1, hule, hshape, hre⟩ := (parse_local_all _).1 _ _ _ hp
  obtain ⟨mid, hcore⟩ := hshape ms rfl
  have hsplit : pre = pre.takeWhile isWsChar ++ skipWs pre :=
    (List.takeWhile_append_dropWhile (p := isWsChar) (l := pre)).symm
  have hrestws : ∀ x ∈ rest, isWsChar x = true := skipWs_eq_nil_iff.mp hws
  refine ⟨pre.takeWhile isWsChar, skipWs pre, rest, JVal.obj ms, u,
    ?_, fun x hx => List.mem_takeWhile_imp hx, ⟨mid, hcore⟩, hrestws, hval, hu1, ?_, ?_⟩
  · rw [hdec]
    conv_lhs => rw [hsplit]
    rw [List.append_assoc]
  · calc u ≤ (skipWs pre).length := hule
      _ ≤ (skipWs pre).length := le_refl _
  · intro fuel2 r2 hf2
    have hcongr : skipWs (skipWs pre ++ r2) = skipWs (pre ++ r2) := by
      conv_rhs => rw [hsplit]
      rw [List.append_assoc, skipWs_ws_append (fun x hx => List.mem_takeWhile_imp hx)]
    rw [parseJVal_congr fuel2 hcongr]
    exact hre fuel2 r2 hf2 (fun n hn => by cases hn)
theorem braceFree_spec {q : String} (h : braceFree q = true) :
    ∀ x ∈ q.data, x ≠ lbraceChar ∧ x ≠ rbraceChar := by
  intro x hx
  unfold braceFree at h
  rw [List.all_eq_true] at h
  have := h x hx
  rw [Bool.and_eq_true, decide_eq_true_iff, decide_eq_true_iff] at this
  exact this

theorem ws_all_not_lbrace {ws : List Char} (h : ∀ x ∈ ws, isWsChar x = true) :
    ∀ x ∈ ws, decide (x ≠ lbraceChar) = true := by
  intro x hx
  exact decide_eq_true (ws_ne_lbrace (h x hx))

theorem string_data_append (a b : String) : (a ++ b).data = a.data ++ b.data := rfl

theorem braceSpan_eval {pd wsL mid restX : List Char}
    (hplb : ∀ x ∈ pd, decide (x ≠ lbraceChar) = true)
    (hwsL : ∀ x ∈ wsL, isWsChar x = true)
    (hxrb : ∀ x ∈ restX, decide (x ≠ rbraceChar) = true) :
    braceSpan (pd ++ (wsL ++ ((lbraceChar :: (mid ++ [rbraceChar])) ++ restX))) =
      some (lbraceChar :: (mid ++ [rbraceChar])) := by
  have hd1 : List.dropWhile (fun c => c ≠ lbraceChar)
      (pd ++ (wsL ++ ((lbraceChar :: (mid ++ [rbraceChar])) ++ restX))) =
      lbraceChar :: ((mid ++ [rbraceChar]) ++ restX) := by
    rw [dropWhile_append_all pd _ hplb,
      dropWhile_append_all wsL _ (ws_all_not_lbrace hwsL)]
    rw [List.cons_append]
    exact dropWhile_cons_neg (by simp) _
  have hrev : (lbraceChar :: ((mid ++ [rbraceChar]) ++ restX)).reverse =
      restX.reverse ++ (rbraceChar :: (mid.reverse ++ [lbraceChar])) := by
    simp
  have hd2 : List.dropWhile (fun c => c ≠ rbraceChar)
      ((lbraceChar :: ((mid ++ [rbraceChar]) ++ restX)).reverse) =
      rbraceChar :: (mid.reverse ++ [lbraceChar]) := by
    rw [hrev, dropWhile_append_all restX.reverse _
      (fun x hx => hxrb x (List.mem_reverse.mp hx))]
    exact dropWhile_cons_neg (by simp) _
  unfold braceSpan
  rw [hd1]
  show (match List.dropWhile (fun c => c ≠ rbraceChar)
      ((lbraceChar :: ((mid ++ [rbraceChar]) ++ restX)).reverse) with
    | [] => none
    | rrev => some rrev.reverse) = some (lbraceChar :: (mid ++ [rbraceChar]))
  rw [hd2]
  show some ((rbraceChar :: (mid.reverse ++ [lbraceChar])).reverse) =
    some (lbraceChar :: (mid ++ [rbraceChar]))
  simp

theorem hasBracePair_of_strict_ok {s : String} {c : Critique}
    (h : strictParseCritique s = Except.ok c) : hasBracePair s = true := by
  obtain ⟨wsL, core, rest, v, u, hdata, hwsL, ⟨mid, hcore⟩, hrest, _, _, _, _⟩ := strict_shape h
  unfold hasBracePair
  rw [hdata, hcore]
  rw [show wsL ++ ((lbraceChar :: (mid ++ [rbraceChar])) ++ rest) =
    wsL ++ (lbraceChar :: ((mid ++ [rbraceChar]) ++ rest)) from by simp]
  rw [dropWhile_append_all wsL _ (ws_all_not_lbrace hwsL)]
  rw [dropWhile_cons_neg (by simp) _]
  rw [List.any_eq_true]
  exact ⟨rbraceChar, by simp, by simp⟩

theorem braceSpan_none_of_no_pair {s : String} (h : hasBracePair s = false) :
    braceSpan s.data = none := by
  unfold hasBracePair at h
  unfold braceSpan
  rcases hD : List.dropWhile (fun c => c ≠ lbraceChar) s.data with _ | ⟨a, as⟩
  · rfl
  · show (match List.dropWhile (fun c => c ≠ rbraceChar) ((a :: as).reverse) with
      | [] => none
      | rrev => some rrev.reverse) = none
    rcases hE : List.dropWhile (fun c => c ≠ rbraceChar) ((a :: as).reverse) with _ | ⟨r0, rs⟩
    · rfl
    · exfalso
      have h1 : decide (r0 ≠ rbraceChar) = false := dropWhile_head_false hE
      have hr0 : r0 = rbraceChar := by simpa using h1
      have hmem0 : r0 ∈ List.dropWhile (fun c => c ≠ rbraceChar) ((a :: as).reverse) := by
        rw [hE]
        simp
      have hmem : r0 ∈ (a :: as) :=
        List.mem_reverse.mp ((List.dropWhile_sublist _).subset hmem0)
      have hmem2 : r0 ∈ List.dropWhile (fun c => c ≠ lbraceChar) s.data := by
        rw [hD]
        exact hmem
      have hany : (List.dropWhile (fun c => c ≠ lbraceChar) s.data).any
          (fun c => c = rbraceChar) = true :=
        List.any_eq_true.mpr ⟨r0, hmem2, by simp [hr0]⟩
      rw [h] at hany
      cases hany

theorem c7_core (raw : String) (h : hasBracePair raw = false) :
    decodeCritique raw = Except.error ("critic_parse_failed: " ++ takeChars 200 raw) ∧
      (takeChars 200 raw).length ≤ 200 := by
  constructor
  · unfold decodeCritique
    split
    next c hst =>
      rw [hasBracePair_of_strict_ok hst] at h
      cases h
    next e hst =>
      split
      next hbs => rfl
      next core hbs =>
        rw [braceSpan_none_of_no_pair h] at hbs
        cases hbs
  · show (raw.data.take 200).length ≤ 200
    rw [List.length_take]
    exact min_le_left _ _

theorem c6_core (t p s : String) (c : Critique)
    (ht : strictParseCritique t = Except.ok c)
    (hpf : braceFree p = true) (hsf : braceFree s = true) :
    decodeCritique (p ++ t ++ s) = Except.ok c ∧ decodeCritique t = Except.ok c := by
  obtain ⟨wsL, core, rest, v, u, hdata, hwsL, ⟨mid, hcore⟩, hrest, hval, hu1, hule, hre⟩ :=
    strict_shape ht
  have hpd := braceFree_spec hpf
  have hsd := braceFree_spec hsf
  have hWdata : (p ++ t ++ s).data = p.data ++ (wsL ++ (core ++ (rest ++ s.data))) := by
    rw [string_data_append, string_data_append, hdata]
    simp
  have hfallback : strictParseCritique (String.mk core) = Except.ok c := by
    apply strictParseCritique_ok.mpr
    have hplen : u ≤ (String.mk core).length + 1 := by
      show u ≤ core.length + 1
      omega
    have hpc := hre ((String.mk core).length + 1) [] hplen
    rw [List.append_nil] at hpc
    exact ⟨v, [], hpc, rfl, hval⟩
  have hbseval : braceSpan ((p ++ t ++ s)).data = some core := by
    rw [hWdata, hcore]
    apply braceSpan_eval
    · exact fun x hx => decide_eq_true (hpd x hx).1
    · exact hwsL
    · intro x hx
      rcases List.mem_append.mp hx with hx1 | hx2
      · exact decide_eq_true (ws_ne_rbrace (hrest x hx1))
      · exact decide_eq_true (hsd x hx2).2
  refine ⟨?_, ?_⟩
  · unfold decodeCritique
    split
    next c' hst =>
      obtain ⟨v', rest', hp', hws', hval'⟩ := strictParseCritique_ok.mp hst
      obtain ⟨ms', hv'⟩ := validateCritique_obj hval'
      by_cases hpws : ∀ x ∈ p.data, isWsChar x = true
      · have hlen : u ≤ (p ++ t ++ s).length + 1 := by
          have h1 : core.length ≤ ((p ++ t ++ s)).data.length := by
            rw [hWdata]
            simp only [List.length_append]
            omega
          have h2 : ((p ++ t ++ s)).data.length = (p ++ t ++ s).length := rfl
          omega
        have hcg : skipWs ((p ++ t ++ s)).data = skipWs (core ++ (rest ++ s.data)) := by
          rw [hWdata, skipWs_ws_append hpws, skipWs_ws_append hwsL]
        have hparse : parseJVal ((p ++ t ++ s).length + 1) ((p ++ t ++ s)).data =
            some (v, rest ++ s.data) := by
          rw [parseJVal_congr _ hcg]
          exact hre _ _ hlen
        rw [hp'] at hparse
        have hv : v' = v := congrArg Prod.fst (Option.some.inj hparse)
        rw [hv] at hval'
        have hcc := hval.symm.trans hval'
        injection hcc with hcc2
        rw [hcc2]
      · exfalso
        have hpne : skipWs p.data ≠ [] := fun hnil => hpws (skipWs_eq_nil_iff.mp hnil)
        rcases hD : skipWs p.data with _ | ⟨h0, tl⟩
        · exact hpne hD
        · have hmem : h0 ∈ p.data := by
            have hm0 : h0 ∈ skipWs p.data := by
              rw [hD]
              simp
            exact (List.dropWhile_sublist _).subset hm0
          have hh0 : h0 ≠ lbraceChar := (hpd h0 hmem).1
          rw [hv'] at hp'
          obtain ⟨preW, uW, hWdec, _, _, hshapeW, _⟩ :=
            (parse_local_all ((p ++ t ++ s).length + 1)).1 _ _ _ hp'
          obtain ⟨midW, hcoreW0⟩ := hshapeW ms' rfl
          have hcoreW : skipWs preW = lbraceChar :: (midW ++ [rbraceChar]) := hcoreW0
          have hWne : skipWs preW ≠ [] := by
            rw [hcoreW]
            simp
          have h1 : skipWs ((p ++ t ++ s)).data = skipWs preW ++ rest' := by
            rw [hWdec, skipWs_append_ne_nil hWne]
          have h2 : skipWs ((p ++ t ++ s)).data =
              (h0 :: tl) ++ (wsL ++ (core ++ (rest ++ s.data))) := by
            rw [hWdata, skipWs_append_ne_nil hpne, hD]
          rw [hcoreW] at h1
          have h3 := h1.symm.trans h2
          have h4 := congrArg List.head? h3
          simp at h4
          exact hh0 h4.symm
    next e hst =>
      split
      next hbs =>
        rw [hbseval] at hbs
        cases hbs
      next core2 hbs =>
        rw [hbseval] at hbs
        injection hbs with h1
        rw [← h1]
        exact hfallback
  · unfold decodeCritique
    split
    next c' hst =>
      rw [ht] at hst
      injection hst with h1
      rw [h1]
    next e hst =>
      rw [ht] at hst
      cases hst
/-- C6: for every text that strict-parses to a valid Critique and any
surrounding prose free of brace characters, the critique decoder applied
to the prose-wrapped text succeeds (via the first-brace-to-last-brace
fallback extraction) and returns the same Critique value as decoding the
bare JSON text. -/
theorem c6_fallback_extraction_roundtrip (t p s : String) (c : Critique)
    (ht : strictParseCritique t = Except.ok c)
    (hp : braceFree p = true) (hs : braceFree s = true) :
    decodeCritique (p ++ t ++ s) = Except.ok c ∧ decodeCritique t = Except.ok c :=
  c6_core t p s c ht hp hs

/-- C6 witness: the valid critique JSON wrapped in concrete prose
("Here you go: ... thanks") decodes to the same Critique as the bare
JSON. -/
theorem c6_fallback_extraction_witness :
    strictParseCritique critJsonText = Except.ok critValue ∧
      braceFree proseBefore = true ∧ braceFree proseAfter = true ∧
      decodeCritique (proseBefore ++ critJsonText ++ proseAfter) = Except.ok critValue ∧
      decodeCritique critJsonText = Except.ok critValue := by
  have h := c6_fallback_extraction_roundtrip critJsonText proseBefore proseAfter critValue
    rfl rfl rfl
  exact ⟨rfl, rfl, rfl, h.1, h.2⟩

/-- C7: for every raw critic output with no open-brace/close-brace pair,
the decode step fails with the message "critic_parse_failed: " followed
by exactly the first 200 characters of the raw input, whose length is at
most 200 — never the full text. -/
theorem c7_no_brace_pair_bounded_error (raw : String) (h : hasBracePair raw = false) :
    decodeCritique raw = Except.error ("critic_parse_failed: " ++ takeChars 200 raw) ∧
      (takeChars 200 raw).length ≤ 200 :=
  c7_core raw h

/-- C7 witness: a concrete brace-free critic output fails with the
bounded message. -/
theorem c7_no_brace_pair_witness :
    hasBracePair rawNoPair = false ∧
      decodeCritique rawNoPair =
        Except.error ("critic_parse_failed: " ++ takeChars 200 rawNoPair) ∧
      (takeChars 200 rawNoPair).length ≤ 200 := by
  have h := c7_no_brace_pair_bounded_error rawNoPair rfl
  exact ⟨rfl, h.1, h.2⟩
